import Mathlib

/-!
Verification of the dspace-csv-archive converter (`dspacearchive.py`) against
its natural-language specification.  The Python source is shallowly embedded:
strings are Lean strings (in this toolchain a `String` wraps a `List Char`,
so character-level reasoning is direct), the filesystem is an explicit state
record threaded through the writer, and the fallible copy step returns an
`Except` value carrying the state at the failure point.
-/

namespace DspaceCsvArchive

/-! ### String and path helpers (models of the Python library calls used) -/

/-- Model of `row.split('#')[0]`: the characters of `row` strictly before the
first occurrence of the character `#` (the whole string when there is none). -/
def beforeHash (row : String) : String :=
  String.mk (row.data.takeWhile (fun c => c ≠ '#'))

/-- Model of Python `str.strip()`: drop leading and trailing whitespace. -/
def pyStrip (s : String) : String :=
  String.mk (((s.data.dropWhile Char.isWhitespace).reverse.dropWhile Char.isWhitespace).reverse)

/-- Whether a path string is absolute, i.e. begins with a slash. -/
def isAbs (p : String) : Bool :=
  match p.data with
  | [] => false
  | c :: _ => c == '/'

/-- Whether a path string ends with a slash. -/
def endsSlash (p : String) : Bool :=
  match p.data.getLast? with
  | none => false
  | some c => c == '/'

/-- Model of `os.path.join(a, b)` (posix, two arguments): an absolute second
component replaces the first; an empty or slash-terminated first component is
prepended as is; otherwise a single slash separates the two. -/
def pathJoin (a b : String) : String :=
  if isAbs b then b
  else if a = ("") then b
  else if endsSlash a then a ++ b
  else a ++ ("/") ++ b

/-- Model of `os.path.basename(p)`: the characters after the last slash. -/
def basename (p : String) : String :=
  String.mk ((p.data.reverse.takeWhile (fun c => c ≠ '/')).reverse)

/-- Model of `os.path.dirname(p)`: the characters up to the last slash, with
trailing slashes removed unless the result consists only of slashes. -/
def dirname (p : String) : String :=
  let head := (p.data.reverse.dropWhile (fun c => c ≠ '/')).reverse
  if head ≠ [] ∧ head.any (fun c => c ≠ '/') then
    String.mk ((head.reverse.dropWhile (fun c => c = '/')).reverse)
  else
    String.mk head

/-! ### Comment stripping and row parsing (`strip_csv_comments`, `csv.reader`) -/

/-- The transformation `strip_csv_comments` applies to one line:
`row.split('#')[0].strip()`. -/
def strip_line (row : String) : String :=
  pyStrip (beforeHash row)

/-- Model of `DspaceArchive.strip_csv_comments`: truncate each line at the
first `#`, strip surrounding whitespace, and drop lines that became empty. -/
def strip_csv_comments : List String → List String
  | [] => []
  | row :: rest =>
    let raw := strip_line row
    if raw ≠ ("") then raw :: strip_csv_comments rest
    else strip_csv_comments rest

/-- Splitting a character list at semicolons; every separator starts a new
segment, so `n` separators yield `n + 1` segments. -/
def splitSemi : List Char → List (List Char)
  | [] => [[]]
  | c :: rest =>
    if c = ';' then [] :: splitSemi rest
    else
      match splitSemi rest with
      | [] => [[c]]
      | seg :: segs => (c :: seg) :: segs

/-- Model of one row produced by `csv.reader(..., delimiter=";")` from one
stripped line: the line split at semicolons.  Quote handling is not modelled;
no claim below depends on the textual content of an individual field beyond
the characters it can contain. -/
def parse_csv_line (s : String) : List String :=
  (splitSemi s.data).map String.mk

/-! ### Items and the archive

`itemfactory.py` is imported by the source but is not among the sources
available here, so the `Item` record is modelled from the spec. -/

/-- Modelled from the spec: the record produced by `ItemFactory.newItem`
(`itemfactory.py` is referenced by the source but missing here).  An item
carries the content filenames listed in the `contents` manifest
(`getFiles`), the referenced file paths relative to the input directory
(`getFilePaths`), the collection names (`getCollections`), the metadata
schemas it uses (`getUsedSchemas`), and its XML serialization per schema
(`toXML`). -/
structure Item where
  getFiles : List String
  getFilePaths : List String
  getCollections : List String
  getUsedSchemas : List String
  toXML : String → String

/-- The archive: the ordered item list plus the base directory used to
resolve relative file references (`self.items`, `self.input_base_path`). -/
structure DspaceArchive where
  items : List Item
  input_base_path : String

/-- Model of `DspaceArchive.__init__`: strip comments, read the header from
the first surviving line, and build one item per remaining line.  `mkItem`
stands for `ItemFactory(header).newItem`; when no line survives stripping,
`next(reader)` raises `StopIteration`, modelled as `none`. -/
def DspaceArchive.init (mkItem : List String → List String → Item)
    (input_path : String) (lines : List String) : Option DspaceArchive :=
  match strip_csv_comments lines with
  | [] => none
  | header :: rows =>
    some { items := rows.map (fun r => mkItem (parse_csv_line header) (parse_csv_line r)),
           input_base_path := dirname input_path }

/-! ### The filesystem state -/

/-- The filesystem visible to the writer: the set of existing directories and
an association of file paths to contents (later entries shadowed by earlier
ones, so `setFile` overwrites by prepending). -/
structure FS where
  dirs : List String
  files : List (String × String)
deriving DecidableEq

/-- First-match lookup in the file association list. -/
def lookupFile : List (String × String) → String → Option String
  | [], _ => none
  | e :: rest, p => if e.1 = p then some e.2 else lookupFile rest p

/-- Read a file: `none` means the file does not exist. -/
def FS.getFile (fs : FS) (p : String) : Option String :=
  lookupFile fs.files p

/-- Write a file, overwriting any previous content at the same path. -/
def FS.setFile (fs : FS) (p c : String) : FS :=
  { fs with files := (p, c) :: fs.files }

/-- Model of `os.path.isdir`. -/
def FS.isDir (fs : FS) (p : String) : Bool :=
  fs.dirs.contains p

/-- Model of `DspaceArchive.create_directory`: `os.mkdir` only when the
directory does not already exist; nothing is ever removed. -/
def create_directory (path : String) (fs : FS) : FS :=
  if fs.isDir path then fs else { fs with dirs := path :: fs.dirs }

/-! ### The writer -/

/-- Model of `"item_%03d" % k`: the decimal digits of `k`, left-padded with
zeros to a minimum width of three. -/
def pad3 (k : Nat) : String :=
  let s := Nat.repr k
  if s.length < 3 then String.mk (List.replicate (3 - s.length) '0') ++ s else s

/-- The directory name for the item at 0-based position `index`:
`"item_%03d" % (int(index) + 1)`. -/
def itemDirName (index : Nat) : String :=
  ("item_") ++ pad3 (index + 1)

/-- The string accumulated by the manifest loops of `writeContentsFile` and
`writeCollectionsFile`: for each entry write the name, then a newline when
the loop index is below the length of the whole list (the source's guard,
kept verbatim). -/
def manifestString (l : List String) : String :=
  l.enum.foldl (fun acc p => acc ++ p.2 ++ (if p.1 < l.length then ("\n") else (""))) ("")

/-- Model of `DspaceArchive.writeContentsFile`: create the file `contents`
in the item directory holding the manifest of the item's content filenames. -/
def writeContentsFile (item : Item) (item_path : String) (fs : FS) : FS :=
  fs.setFile (pathJoin item_path ("contents")) (manifestString item.getFiles)

/-- Model of `DspaceArchive.writeCollectionsFile`: create the file
`collections` in the item directory holding the manifest of the item's
collection names. -/
def writeCollectionsFile (item : Item) (item_path : String) (fs : FS) : FS :=
  fs.setFile (pathJoin item_path ("collections")) (manifestString item.getCollections)

/-- The metadata filename for a schema: `dublin_core.xml` for the schema
`dc`, `metadata_<schema>.xml` otherwise (from `writeMetadata`). -/
def metadataFilename (schema : String) : String :=
  if schema = ("dc") then ("dublin_core.xml")
  else ("metadata_") ++ schema ++ (".xml")

/-- Model of `DspaceArchive.writeMetadata`: for each schema the item uses,
write that schema's XML serialization to the schema's metadata filename in
the item directory. -/
def writeMetadata (item : Item) (item_path : String) (fs : FS) : FS :=
  item.getUsedSchemas.foldl
    (fun fs schema => fs.setFile (pathJoin item_path (metadataFilename schema)) (item.toXML schema))
    fs

/-- The copy loop of `copyFiles`: each referenced path is resolved against
the input base directory and copied into the item directory under its base
name (`shutil.copy(src, item_path)`).  A missing source raises, modelled as
an error carrying the missing path and the state at the failure point. -/
def copyList (base item_path : String) : List String → FS → Except (String × FS) FS
  | [], fs => Except.ok fs
  | p :: rest, fs =>
    match fs.getFile (pathJoin base p) with
    | none => Except.error (pathJoin base p, fs)
    | some c => copyList base item_path rest (fs.setFile (pathJoin item_path (basename p)) c)

/-- Model of `DspaceArchive.copyFiles`. -/
def copyFiles (base : String) (item : Item) (item_path : String) (fs : FS) :
    Except (String × FS) FS :=
  copyList base item_path item.getFilePaths fs

/-- The body of the loop in `DspaceArchive.write` for the item at position
`index`: create the item directory, write the two manifests, copy the
content files (which may fail), then write the metadata files. -/
def writeItem (base dir : String) (index : Nat) (item : Item) (fs : FS) :
    Except (String × FS) FS :=
  let item_path := pathJoin dir (itemDirName index)
  let fs1 := create_directory item_path fs
  let fs2 := writeContentsFile item item_path fs1
  let fs3 := writeCollectionsFile item item_path fs2
  match copyFiles base item item_path fs3 with
  | Except.error e => Except.error e
  | Except.ok fs4 => Except.ok (writeMetadata item item_path fs4)

/-- The loop of `DspaceArchive.write` over the enumerated items; an error
aborts the remaining iterations immediately. -/
def writeItems (base dir : String) : List (Nat × Item) → FS → Except (String × FS) FS
  | [], fs => Except.ok fs
  | p :: rest, fs =>
    match writeItem base dir p.1 p.2 fs with
    | Except.error e => Except.error e
    | Except.ok fs1 => writeItems base dir rest fs1

/-- Model of `DspaceArchive.write`: create the output root, then write each
enumerated item. -/
def DspaceArchive.write (a : DspaceArchive) (dir : String) (fs : FS) :
    Except (String × FS) FS :=
  writeItems a.input_base_path dir a.items.enum (create_directory dir fs)

/-- The filesystem state an `Except` result carries: the final state on
success, the state at the failure point on error. -/
def stateOf (r : Except (String × FS) FS) : FS :=
  match r with
  | Except.ok fs => fs
  | Except.error e => e.2

/-! ### Handle-event traces

The output files are written with `open` and an explicit `close()` with no
`try`/`finally` and no `with` block, so the handle discipline is captured by
the sequence of handle events a writer performs and by which prefix of that
sequence runs when one event raises. -/

/-- A file-handle event: opening the output file, one `write` call, the
final `close()`. -/
inductive HEvent
  | openH
  | writeH
  | closeH
deriving DecidableEq

/-- The handle events of `writeContentsFile` for a given file list: `open`,
then per entry one write for the name and, when the guard holds, one write
for the newline, then `close`.  `writeCollectionsFile` performs the same
trace on the collection list. -/
def contentsEvents (files : List String) : List HEvent :=
  HEvent.openH ::
    (files.enum.foldr
      (fun p acc => HEvent.writeH :: (if p.1 < files.length then HEvent.writeH :: acc else acc))
      []) ++ [HEvent.closeH]

/-- The handle events of one schema iteration of `writeMetadata`: `open`,
one write of the XML string, `close`. -/
def metadataEvents : List HEvent :=
  [HEvent.openH, HEvent.writeH, HEvent.closeH]

/-- Exception model: when no event raises, the whole trace runs; when the
event at position `k` raises, only the events before it complete. -/
def execEvents (evs : List HEvent) (failAt : Option Nat) : List HEvent :=
  match failAt with
  | none => evs
  | some k => evs.take k

/-- Whether the handle is released on the exit taken: the `close` event is
among the events that completed. -/
def handleClosedOnExit (evs : List HEvent) (failAt : Option Nat) : Prop :=
  HEvent.closeH ∈ execEvents evs failAt

instance (evs : List HEvent) (failAt : Option Nat) :
    Decidable (handleClosedOnExit evs failAt) := by
  unfold handleClosedOnExit
  infer_instance

/-! ### Auxiliary functions used only by the proofs -/

/-- The decimal digit characters of `n`, most significant first; reference
version of `Nat.toDigitsCore` with structural recursion on `n`. -/
def repChars (n : Nat) : List Char :=
  if n < 10 then [Nat.digitChar n]
  else repChars (n / 10) ++ [Nat.digitChar (n % 10)]
termination_by n
decreasing_by
  exact Nat.div_lt_self (by omega) (by omega)

/-- Reading a digit-character list back as a number, taking leading zeros
into account; inverse of `repChars` and of `pad3`. -/
def charsToNat (l : List Char) : Nat :=
  l.foldl (fun a c => 10 * a + (c.toNat - 48)) 0

/-- Splitting a character list at newline characters; the file content
`a ++ "\n" ++ b ++ "\n"` splits into `[a, b, []]`. -/
def splitNl : List Char → List (List Char)
  | [] => [[]]
  | c :: rest =>
    if c = '\n' then [] :: splitNl rest
    else
      match splitNl rest with
      | [] => [[c]]
      | seg :: segs => (c :: seg) :: segs

end DspaceCsvArchive

namespace DspaceCsvArchive

/-! ### Generic helper lemmas -/

theorem str_data_ext {s t : String} (h : s.data = t.data) : s = t :=
  congrArg String.mk h

theorem mem_of_getLast?_eq : ∀ {α : Type} {l : List α} {c : α}, l.getLast? = some c → c ∈ l := by
  intro α l
  induction l with
  | nil => intro c h; cases h
  | cons a t ih =>
    intro c h
    cases t with
    | nil =>
      simp only [List.getLast?_singleton, Option.some.injEq] at h
      simp [h]
    | cons b t2 =>
      rw [List.getLast?_cons_cons] at h
      exact List.mem_cons_of_mem a (ih h)

theorem takeWhile_append_all {α : Type} (p : α → Bool) :
    ∀ (l1 l2 : List α), (∀ c ∈ l1, p c = true) →
    List.takeWhile p (l1 ++ l2) = l1 ++ List.takeWhile p l2 := by
  intro l1
  induction l1 with
  | nil => intro l2 _; rfl
  | cons a t ih =>
    intro l2 h
    have ha : p a = true := h a (List.mem_cons_self a t)
    simp only [List.cons_append, List.takeWhile_cons, ha, if_true]
    rw [ih l2 (fun c hc => h c (List.mem_cons_of_mem a hc))]

theorem head?_dropWhile_not {α : Type} (p : α → Bool) :
    ∀ (l : List α) (c : α), (l.dropWhile p).head? = some c → p c = false := by
  intro l
  induction l with
  | nil => intro c h; cases h
  | cons a t ih =>
    intro c h
    by_cases ha : p a = true
    · rw [List.dropWhile_cons, if_pos ha] at h
      exact ih c h
    · rw [List.dropWhile_cons, if_neg ha] at h
      simp only [List.head?_cons, Option.some.injEq] at h
      subst h
      exact Bool.eq_false_iff.mpr ha

theorem sep_split : ∀ (a c b d : List Char), '/' ∉ a → '/' ∉ c →
    a ++ '/' :: b = c ++ '/' :: d → a = c ∧ b = d := by
  intro a
  induction a with
  | nil =>
    intro c b d _ hc h
    cases c with
    | nil => simpa using h
    | cons y c2 =>
      exfalso
      simp only [List.nil_append, List.cons_append, List.cons.injEq] at h
      exact hc (h.1 ▸ List.mem_cons_self y c2)
  | cons x a2 ih =>
    intro c b d ha hc h
    cases c with
    | nil =>
      exfalso
      simp only [List.cons_append, List.nil_append, List.cons.injEq] at h
      exact ha (h.1 ▸ List.mem_cons_self x a2)
    | cons y c2 =>
      simp only [List.cons_append, List.cons.injEq] at h
      obtain ⟨hxy, h2⟩ := h
      have := ih c2 b d (fun hm => ha (List.mem_cons_of_mem x hm))
        (fun hm => hc (List.mem_cons_of_mem y hm)) h2
      exact ⟨by rw [hxy, this.1], this.2⟩

/-! ### Decimal representation: `repChars` agrees with `Nat.repr` and is
invertible, so the `item_%03d` directory names are injective in the index -/

theorem repChars_lt {n : Nat} (h : n < 10) : repChars n = [Nat.digitChar n] := by
  rw [repChars]
  simp [h]

theorem repChars_ge {n : Nat} (h : ¬ n < 10) :
    repChars n = repChars (n / 10) ++ [Nat.digitChar (n % 10)] := by
  rw [repChars]
  simp [h]

theorem toDigitsCore_eq_repChars : ∀ (fuel n : Nat) (ds : List Char), n < fuel →
    Nat.toDigitsCore 10 fuel n ds = repChars n ++ ds := by
  intro fuel
  induction fuel with
  | zero => intro n ds h; omega
  | succ f ih =>
    intro n ds h
    simp only [Nat.toDigitsCore]
    by_cases h10 : n / 10 = 0
    · have hn : n < 10 := (Nat.div_eq_zero_iff (by omega)).mp h10
      rw [if_pos h10, repChars_lt hn, Nat.mod_eq_of_lt hn]
      rfl
    · have hn : ¬ n < 10 := fun hlt => h10 (Nat.div_eq_of_lt hlt)
      have hdiv : n / 10 < n := Nat.div_lt_self (by omega) (by omega)
      rw [if_neg h10, ih (n / 10) _ (by omega), repChars_ge hn, List.append_assoc]
      rfl

theorem nat_repr_eq_repChars (n : Nat) : Nat.repr n = String.mk (repChars n) := by
  show (Nat.toDigits 10 n).asString = _
  rw [show Nat.toDigits 10 n = Nat.toDigitsCore 10 (n + 1) n [] from rfl,
    toDigitsCore_eq_repChars (n + 1) n [] (by omega), List.append_nil]
  rfl

theorem digitChar_toNat : ∀ d < 10, (Nat.digitChar d).toNat = 48 + d := by
  decide

theorem digitChar_ne_slash : ∀ d, Nat.digitChar d ≠ '/' := by
  intro d
  rcases Nat.lt_or_ge d 16 with h | h
  · exact (show ∀ e, e < 16 → Nat.digitChar e ≠ '/' by decide) d h
  · unfold Nat.digitChar
    rw [if_neg (by omega : ¬ d = 0), if_neg (by omega : ¬ d = 1),
      if_neg (by omega : ¬ d = 2), if_neg (by omega : ¬ d = 3),
      if_neg (by omega : ¬ d = 4), if_neg (by omega : ¬ d = 5),
      if_neg (by omega : ¬ d = 6), if_neg (by omega : ¬ d = 7),
      if_neg (by omega : ¬ d = 8), if_neg (by omega : ¬ d = 9),
      if_neg (by omega : ¬ d = 10), if_neg (by omega : ¬ d = 11),
      if_neg (by omega : ¬ d = 12), if_neg (by omega : ¬ d = 13),
      if_neg (by omega : ¬ d = 14), if_neg (by omega : ¬ d = 15)]
    decide

theorem charsToNat_repChars : ∀ n, charsToNat (repChars n) = n := by
  intro n
  induction n using Nat.strong_induction_on with
  | _ n ih =>
    by_cases h : n < 10
    · rw [repChars_lt h]
      show 10 * 0 + ((Nat.digitChar n).toNat - 48) = n
      rw [digitChar_toNat n h]
      omega
    · rw [repChars_ge h]
      unfold charsToNat
      rw [List.foldl_append]
      have hdiv : n / 10 < n := Nat.div_lt_self (by omega) (by omega)
      have hrec := ih (n / 10) hdiv
      unfold charsToNat at hrec
      rw [hrec]
      show 10 * (n / 10) + ((Nat.digitChar (n % 10)).toNat - 48) = n
      rw [digitChar_toNat (n % 10) (Nat.mod_lt n (by omega))]
      omega

theorem nat_repr_injective {a b : Nat} (h : Nat.repr a = Nat.repr b) : a = b := by
  rw [nat_repr_eq_repChars, nat_repr_eq_repChars] at h
  have h2 : repChars a = repChars b := congrArg String.data h
  have ha := charsToNat_repChars a
  rw [h2, charsToNat_repChars b] at ha
  exact ha.symm

end DspaceCsvArchive

namespace DspaceCsvArchive

/-! ### `pad3` and `itemDirName` -/

theorem foldl_replicate_zero (k : Nat) (l : List Char) :
    (List.replicate k '0' ++ l).foldl (fun a c => 10 * a + (c.toNat - 48)) 0
      = l.foldl (fun a c => 10 * a + (c.toNat - 48)) 0 := by
  induction k with
  | zero => rfl
  | succ k ih =>
    rw [List.replicate_succ, List.cons_append, List.foldl_cons]
    exact ih

theorem pad3_eq_ite (n : Nat) :
    pad3 n = if (Nat.repr n).length < 3 then
      String.mk (List.replicate (3 - (Nat.repr n).length) '0') ++ Nat.repr n
    else Nat.repr n := rfl

theorem nat_repr_data (n : Nat) : (Nat.repr n).data = repChars n := by
  rw [nat_repr_eq_repChars]

theorem charsToNat_pad3 (n : Nat) : charsToNat (pad3 n).data = n := by
  rw [pad3_eq_ite]
  by_cases h : (Nat.repr n).length < 3
  · rw [if_pos h]
    unfold charsToNat
    rw [String.data_append]
    have hmk : (String.mk (List.replicate (3 - (Nat.repr n).length) '0')).data
        = List.replicate (3 - (Nat.repr n).length) '0' := rfl
    rw [hmk, foldl_replicate_zero, nat_repr_data]
    exact charsToNat_repChars n
  · rw [if_neg h]
    unfold charsToNat
    rw [nat_repr_data]
    exact charsToNat_repChars n

theorem pad3_injective {a b : Nat} (h : pad3 a = pad3 b) : a = b := by
  have ha := charsToNat_pad3 a
  rw [h, charsToNat_pad3 b] at ha
  exact ha.symm

theorem mem_repChars_digit : ∀ n c, c ∈ repChars n → ∃ d, c = Nat.digitChar d := by
  intro n
  induction n using Nat.strong_induction_on with
  | _ n ih =>
    intro c hc
    by_cases h : n < 10
    · rw [repChars_lt h] at hc
      simp only [List.mem_singleton] at hc
      exact ⟨n, hc⟩
    · rw [repChars_ge h] at hc
      rcases List.mem_append.mp hc with h1 | h2
      · exact ih (n / 10) (Nat.div_lt_self (by omega) (by omega)) c h1
      · simp only [List.mem_singleton] at h2
        exact ⟨n % 10, h2⟩

theorem slash_not_mem_pad3 (n : Nat) : '/' ∉ (pad3 n).data := by
  rw [pad3_eq_ite]
  by_cases h : (Nat.repr n).length < 3
  · rw [if_pos h, String.data_append,
      show (String.mk (List.replicate (3 - (Nat.repr n).length) '0')).data
        = List.replicate (3 - (Nat.repr n).length) '0' from rfl]
    intro hmem
    rcases List.mem_append.mp hmem with h1 | h2
    · exact absurd (List.eq_of_mem_replicate h1) (by decide)
    · rw [nat_repr_data] at h2
      obtain ⟨d, hd⟩ := mem_repChars_digit n '/' h2
      exact digitChar_ne_slash d hd.symm
  · rw [if_neg h, nat_repr_data]
    intro hmem
    obtain ⟨d, hd⟩ := mem_repChars_digit n '/' hmem
    exact digitChar_ne_slash d hd.symm

theorem itemDirName_data (k : Nat) :
    (itemDirName k).data = 'i' :: 't' :: 'e' :: 'm' :: '_' :: (pad3 (k + 1)).data := by
  show (("item_") ++ pad3 (k + 1)).data = _
  rw [String.data_append]
  rfl

theorem itemDirName_injective {i j : Nat} (h : itemDirName i = itemDirName j) : i = j := by
  have hd := congrArg String.data h
  rw [itemDirName_data, itemDirName_data] at hd
  simp only [List.cons.injEq, true_and] at hd
  have hp : pad3 (i + 1) = pad3 (j + 1) := str_data_ext hd
  have := pad3_injective hp
  omega

theorem slash_not_mem_itemDirName (k : Nat) : '/' ∉ (itemDirName k).data := by
  rw [itemDirName_data]
  intro h
  simp only [List.mem_cons] at h
  rcases h with h | h | h | h | h | h
  · exact absurd h (by decide)
  · exact absurd h (by decide)
  · exact absurd h (by decide)
  · exact absurd h (by decide)
  · exact absurd h (by decide)
  · exact slash_not_mem_pad3 (k + 1) h

theorem itemDirName_data_ne_nil (k : Nat) : (itemDirName k).data ≠ [] := by
  rw [itemDirName_data]
  exact List.cons_ne_nil _ _

theorem isAbs_eq_false_of_no_slash {s : String} (h : '/' ∉ s.data) : isAbs s = false := by
  unfold isAbs
  cases hd : s.data with
  | nil => rfl
  | cons c t =>
    have hm : c ∈ s.data := by rw [hd]; exact List.mem_cons_self c t
    have hc : c ≠ '/' := fun he => h (he ▸ hm)
    simp [hc]

theorem isAbs_itemDirName (k : Nat) : isAbs (itemDirName k) = false :=
  isAbs_eq_false_of_no_slash (slash_not_mem_itemDirName k)

/-! ### `pathJoin` structure -/

theorem pathJoin_not_abs {a b : String} (hb : isAbs b = false) :
    pathJoin a b = if a = ("") then b else if endsSlash a then a ++ b
      else a ++ ("/") ++ b := by
  unfold pathJoin
  rw [hb]
  rfl

theorem pathJoin_data_cases (dir b : String) (hb : isAbs b = false) :
    (pathJoin dir b).data =
      (if dir = ("") then [] else if endsSlash dir then dir.data
        else dir.data ++ ['/']) ++ b.data := by
  rw [pathJoin_not_abs hb]
  by_cases h1 : dir = ("")
  · simp [h1]
  · by_cases h2 : endsSlash dir
    · simp [h1, h2, String.data_append]
    · have hslash : (("/") : String).data = ['/'] := rfl
      simp [h1, h2, String.data_append, hslash, List.append_assoc]

theorem itemPath_injective {dir : String} {i j : Nat}
    (h : pathJoin dir (itemDirName i) = pathJoin dir (itemDirName j)) : i = j := by
  have hd := congrArg String.data h
  rw [pathJoin_data_cases dir _ (isAbs_itemDirName i),
    pathJoin_data_cases dir _ (isAbs_itemDirName j)] at hd
  exact itemDirName_injective (str_data_ext (List.append_cancel_left hd))

theorem itemPath_ne_dir {dir : String} (k : Nat) : pathJoin dir (itemDirName k) ≠ dir := by
  intro h
  have hd := congrArg String.data h
  rw [pathJoin_data_cases dir _ (isAbs_itemDirName k)] at hd
  have hlen := congrArg List.length hd
  rw [List.length_append] at hlen
  have hn : (itemDirName k).data.length ≠ 0 :=
    fun h0 => itemDirName_data_ne_nil k (List.eq_nil_of_length_eq_zero h0)
  by_cases h1 : dir = ("")
  · rw [if_pos h1] at hlen
    have hdir : dir.data = ([] : List Char) := by rw [h1]
    rw [hdir] at hlen
    simp only [List.length_nil] at hlen
    omega
  · rw [if_neg h1] at hlen
    by_cases h2 : endsSlash dir
    · rw [if_pos h2] at hlen
      omega
    · rw [if_neg h2] at hlen
      rw [List.length_append] at hlen
      simp only [List.length_singleton] at hlen
      omega

end DspaceCsvArchive

namespace DspaceCsvArchive

theorem some_or_eq {α : Type} (a : α) (o : Option α) : (some a).or o = some a := rfl

theorem exists_getLast?_of_ne_nil : ∀ {α : Type} {l : List α}, l ≠ [] →
    ∃ c, l.getLast? = some c := by
  intro α l
  induction l with
  | nil => intro h; exact absurd rfl h
  | cons a t ih =>
    intro _
    cases t with
    | nil => exact ⟨a, rfl⟩
    | cons b t2 =>
      obtain ⟨c, hc⟩ := ih (List.cons_ne_nil b t2)
      exact ⟨c, by rw [List.getLast?_cons_cons]; exact hc⟩

theorem endsSlash_eq_false_of_no_slash {s : String} (h : '/' ∉ s.data) :
    endsSlash s = false := by
  unfold endsSlash
  cases hl : s.data.getLast? with
  | none => rfl
  | some c =>
    have hm : c ∈ s.data := mem_of_getLast?_eq hl
    have hc : c ≠ '/' := fun he => h (he ▸ hm)
    simp [hc]

theorem itemPath_data_ne_nil (dir : String) (k : Nat) :
    (pathJoin dir (itemDirName k)).data ≠ [] := by
  rw [pathJoin_data_cases dir _ (isAbs_itemDirName k)]
  intro h
  exact itemDirName_data_ne_nil k (List.append_eq_nil.mp h).2

theorem endsSlash_itemPath (dir : String) (k : Nat) :
    endsSlash (pathJoin dir (itemDirName k)) = false := by
  unfold endsSlash
  cases hl : (pathJoin dir (itemDirName k)).data.getLast? with
  | none => rfl
  | some c =>
    rw [pathJoin_data_cases dir _ (isAbs_itemDirName k), List.getLast?_append] at hl
    obtain ⟨c2, hc2⟩ := exists_getLast?_of_ne_nil (itemDirName_data_ne_nil k)
    rw [hc2, some_or_eq] at hl
    injection hl with hl2
    have hm : c2 ∈ (itemDirName k).data := mem_of_getLast?_eq hc2
    have hne : c2 ≠ '/' := fun he => slash_not_mem_itemDirName k (he ▸ hm)
    rw [← hl2]
    simp [hne]

theorem pathJoin_seg_data {ip x : String} (hne : ip.data ≠ []) (hes : endsSlash ip = false)
    (hx : isAbs x = false) : (pathJoin ip x).data = ip.data ++ '/' :: x.data := by
  have h1 : ¬ ip = ("") := fun he => hne (by rw [he])
  rw [pathJoin_data_cases ip x hx, if_neg h1, hes]
  simp [List.append_assoc]

theorem artifact_path_ne {dir : String} {i j : Nat} (hij : i ≠ j) {x y : String}
    (hx : isAbs x = false) (hy : isAbs y = false) :
    pathJoin (pathJoin dir (itemDirName i)) x ≠ pathJoin (pathJoin dir (itemDirName j)) y := by
  intro h
  apply hij
  have hd := congrArg String.data h
  rw [pathJoin_seg_data (itemPath_data_ne_nil dir i) (endsSlash_itemPath dir i) hx,
    pathJoin_seg_data (itemPath_data_ne_nil dir j) (endsSlash_itemPath dir j) hy,
    pathJoin_data_cases dir _ (isAbs_itemDirName i),
    pathJoin_data_cases dir _ (isAbs_itemDirName j), List.append_assoc,
    List.append_assoc] at hd
  have hd2 := List.append_cancel_left hd
  have hsplit := sep_split _ _ _ _ (slash_not_mem_itemDirName i)
    (slash_not_mem_itemDirName j) hd2
  exact itemDirName_injective (str_data_ext hsplit.1)

theorem join_ne_of_name_ne {ip x y : String} (hne : ip.data ≠ [])
    (hes : endsSlash ip = false) (hx : isAbs x = false) (hy : isAbs y = false)
    (hxy : x ≠ y) : pathJoin ip x ≠ pathJoin ip y := by
  intro h
  apply hxy
  have hd := congrArg String.data h
  rw [pathJoin_seg_data hne hes hx, pathJoin_seg_data hne hes hy] at hd
  have h2 := List.append_cancel_left hd
  injection h2 with _ h3
  exact str_data_ext h3

theorem slash_not_mem_basename (p : String) : '/' ∉ (basename p).data := by
  unfold basename
  intro h
  rw [show (String.mk ((p.data.reverse.takeWhile (fun c => c ≠ '/')).reverse)).data
    = (p.data.reverse.takeWhile (fun c => c ≠ '/')).reverse from rfl,
    List.mem_reverse] at h
  have := List.mem_takeWhile_imp h
  simp at this

theorem isAbs_basename (p : String) : isAbs (basename p) = false :=
  isAbs_eq_false_of_no_slash (slash_not_mem_basename p)

theorem isAbs_contents : isAbs ("contents") = false := by decide

theorem isAbs_collections : isAbs ("collections") = false := by decide

theorem contents_ne_collections : ("contents" : String) ≠ ("collections") := by decide

theorem metadataFilename_data {s : String} (h : ¬ s = ("dc")) :
    (metadataFilename s).data =
      'm' :: 'e' :: 't' :: 'a' :: 'd' :: 'a' :: 't' :: 'a' :: '_' ::
        (s.data ++ '.' :: 'x' :: 'm' :: 'l' :: []) := by
  unfold metadataFilename
  rw [if_neg h, String.data_append, String.data_append, List.append_assoc]
  rfl

theorem isAbs_metadataFilename (s : String) : isAbs (metadataFilename s) = false := by
  by_cases h : s = ("dc")
  · unfold metadataFilename
    rw [if_pos h]
    decide
  · unfold isAbs
    rw [metadataFilename_data h]
    rfl

theorem metadataFilename_dc : metadataFilename ("dc") = ("dublin_core.xml") := rfl

theorem dublin_core_data : (("dublin_core.xml") : String).data =
    'd' :: 'u' :: 'b' :: 'l' :: 'i' :: 'n' :: '_' :: 'c' :: 'o' :: 'r' :: 'e' ::
      '.' :: 'x' :: 'm' :: 'l' :: [] := rfl

theorem contents_data : (("contents") : String).data =
    'c' :: 'o' :: 'n' :: 't' :: 'e' :: 'n' :: 't' :: 's' :: [] := rfl

theorem collections_data : (("collections") : String).data =
    'c' :: 'o' :: 'l' :: 'l' :: 'e' :: 'c' :: 't' :: 'i' :: 'o' :: 'n' :: 's' :: [] := rfl

theorem metadataFilename_injective {s t : String}
    (h : metadataFilename s = metadataFilename t) : s = t := by
  by_cases hs : s = ("dc")
  · by_cases ht : t = ("dc")
    · rw [hs, ht]
    · exfalso
      rw [hs, metadataFilename_dc] at h
      have hd := congrArg String.data h
      rw [metadataFilename_data ht, dublin_core_data] at hd
      injection hd with h1 _
      exact absurd h1 (by decide)
  · by_cases ht : t = ("dc")
    · exfalso
      rw [ht, metadataFilename_dc] at h
      have hd := congrArg String.data h
      rw [metadataFilename_data hs, dublin_core_data] at hd
      injection hd with h1 _
      exact absurd h1 (by decide)
    · have hd := congrArg String.data h
      rw [metadataFilename_data hs, metadataFilename_data ht] at hd
      simp only [List.cons.injEq, true_and] at hd
      exact str_data_ext (List.append_cancel_right hd)

theorem metadataFilename_ne_contents (s : String) :
    metadataFilename s ≠ ("contents") := by
  intro h
  by_cases hs : s = ("dc")
  · rw [hs, metadataFilename_dc] at h
    exact absurd h (by decide)
  · have hd := congrArg String.data h
    rw [metadataFilename_data hs, contents_data] at hd
    injection hd with h1 _
    exact absurd h1 (by decide)

theorem metadataFilename_ne_collections (s : String) :
    metadataFilename s ≠ ("collections") := by
  intro h
  by_cases hs : s = ("dc")
  · rw [hs, metadataFilename_dc] at h
    exact absurd h (by decide)
  · have hd := congrArg String.data h
    rw [metadataFilename_data hs, collections_data] at hd
    injection hd with h1 _
    exact absurd h1 (by decide)

end DspaceCsvArchive

namespace DspaceCsvArchive

/-! ### Filesystem-state lemmas -/

theorem isDir_true_of_mem {fs : FS} {p : String} (h : p ∈ fs.dirs) : fs.isDir p = true := by
  unfold FS.isDir
  rw [List.contains]
  exact List.elem_iff.mpr h

theorem isDir_false_of_not_mem {fs : FS} {p : String} (h : p ∉ fs.dirs) :
    fs.isDir p = false := by
  unfold FS.isDir
  rw [List.contains]
  exact Bool.eq_false_iff.mpr (fun hc => h (List.elem_iff.mp hc))

theorem mem_of_isDir {fs : FS} {p : String} (h : fs.isDir p = true) : p ∈ fs.dirs := by
  unfold FS.isDir at h
  rw [List.contains] at h
  exact List.elem_iff.mp h

theorem getFile_setFile_same (fs : FS) (p c : String) :
    (fs.setFile p c).getFile p = some c := by
  unfold FS.getFile FS.setFile
  simp [lookupFile]

theorem getFile_setFile_ne (fs : FS) {p q : String} (c : String) (h : p ≠ q) :
    (fs.setFile p c).getFile q = fs.getFile q := by
  unfold FS.getFile FS.setFile
  simp [lookupFile, h]

theorem setFile_dirs (fs : FS) (p c : String) : (fs.setFile p c).dirs = fs.dirs := rfl

theorem getFile_isSome_setFile (fs : FS) (p c q : String)
    (h : (fs.getFile q).isSome) : ((fs.setFile p c).getFile q).isSome := by
  by_cases hpq : p = q
  · subst hpq
    rw [getFile_setFile_same]
    rfl
  · rw [getFile_setFile_ne fs c hpq]
    exact h

theorem create_directory_files (p : String) (fs : FS) :
    (create_directory p fs).files = fs.files := by
  unfold create_directory
  split <;> rfl

theorem create_directory_getFile (p : String) (fs : FS) (q : String) :
    (create_directory p fs).getFile q = fs.getFile q := by
  unfold FS.getFile
  rw [create_directory_files]

theorem create_directory_of_isDir {p : String} {fs : FS} (h : fs.isDir p = true) :
    create_directory p fs = fs := by
  unfold create_directory
  rw [h]
  rfl

theorem create_directory_dirs_of_new {p : String} {fs : FS} (h : fs.isDir p = false) :
    (create_directory p fs).dirs = p :: fs.dirs := by
  unfold create_directory
  rw [h]
  rfl

theorem mem_dirs_create_directory (p : String) (fs : FS) :
    p ∈ (create_directory p fs).dirs := by
  unfold create_directory
  by_cases h : fs.isDir p
  · rw [if_pos h]
    exact mem_of_isDir h
  · rw [if_neg h]
    exact List.mem_cons_self p fs.dirs

theorem dirs_subset_create_directory (p : String) (fs : FS) :
    fs.dirs ⊆ (create_directory p fs).dirs := by
  unfold create_directory
  split
  · exact fun x hx => hx
  · exact fun x hx => List.mem_cons_of_mem p hx

theorem writeContentsFile_dirs (it : Item) (ip : String) (fs : FS) :
    (writeContentsFile it ip fs).dirs = fs.dirs := rfl

theorem writeCollectionsFile_dirs (it : Item) (ip : String) (fs : FS) :
    (writeCollectionsFile it ip fs).dirs = fs.dirs := rfl

theorem writeMetadata_dirs (it : Item) (ip : String) (fs : FS) :
    (writeMetadata it ip fs).dirs = fs.dirs := by
  unfold writeMetadata
  generalize it.getUsedSchemas = l
  induction l generalizing fs with
  | nil => rfl
  | cons s t ih =>
    rw [List.foldl_cons]
    exact ih _

theorem writeMetadata_getFile_notin (it : Item) (ip q : String) :
    ∀ (l : List String) (fs : FS), (∀ s ∈ l, pathJoin ip (metadataFilename s) ≠ q) →
    (l.foldl (fun fs schema =>
        fs.setFile (pathJoin ip (metadataFilename schema)) (it.toXML schema)) fs).getFile q
      = fs.getFile q := by
  intro l
  induction l with
  | nil => intro fs _; rfl
  | cons s t ih =>
    intro fs h
    rw [List.foldl_cons, ih _ (fun u hu => h u (List.mem_cons_of_mem s hu)),
      getFile_setFile_ne fs _ (h s (List.mem_cons_self s t))]

theorem writeMetadata_getFile_isSome (it : Item) (ip q : String) :
    ∀ (l : List String) (fs : FS), (fs.getFile q).isSome →
    ((l.foldl (fun fs schema =>
        fs.setFile (pathJoin ip (metadataFilename schema)) (it.toXML schema)) fs).getFile q).isSome := by
  intro l
  induction l with
  | nil => intro fs h; exact h
  | cons s t ih =>
    intro fs h
    rw [List.foldl_cons]
    exact ih _ (getFile_isSome_setFile fs _ _ q h)

theorem copyList_dirs (base ip : String) : ∀ (l : List String) (fs : FS),
    (stateOf (copyList base ip l fs)).dirs = fs.dirs := by
  intro l
  induction l with
  | nil => intro fs; rfl
  | cons p rest ih =>
    intro fs
    simp only [copyList]
    cases hg : fs.getFile (pathJoin base p) with
    | none => rfl
    | some c => exact ih _

theorem copyList_getFile_notin (base ip q : String) :
    ∀ (l : List String) (fs : FS), (∀ p ∈ l, pathJoin ip (basename p) ≠ q) →
    (stateOf (copyList base ip l fs)).getFile q = fs.getFile q := by
  intro l
  induction l with
  | nil => intro fs _; rfl
  | cons p rest ih =>
    intro fs h
    simp only [copyList]
    cases hg : fs.getFile (pathJoin base p) with
    | none => rfl
    | some c =>
      rw [ih _ (fun u hu => h u (List.mem_cons_of_mem p hu)),
        getFile_setFile_ne fs _ (h p (List.mem_cons_self p rest))]

theorem copyList_getFile_isSome (base ip q : String) :
    ∀ (l : List String) (fs : FS), (fs.getFile q).isSome →
    ((stateOf (copyList base ip l fs)).getFile q).isSome := by
  intro l
  induction l with
  | nil => intro fs h; exact h
  | cons p rest ih =>
    intro fs h
    simp only [copyList]
    cases hg : fs.getFile (pathJoin base p) with
    | none => exact h
    | some c => exact ih _ (getFile_isSome_setFile fs _ _ q h)

theorem copyList_error_shape (base ip : String) :
    ∀ (l : List String) (fs : FS) (e : String) (fsE : FS),
    copyList base ip l fs = Except.error (e, fsE) →
    ∃ l1 p l2, l = l1 ++ p :: l2 ∧ fsE.getFile (pathJoin base p) = none
      ∧ e = pathJoin base p := by
  intro l
  induction l with
  | nil => intro fs e fsE h; cases h
  | cons p rest ih =>
    intro fs e fsE h
    simp only [copyList] at h
    cases hg : fs.getFile (pathJoin base p) with
    | none =>
      rw [hg] at h
      injection h with h2
      injection h2 with he hfs
      exact ⟨[], p, rest, rfl, by rw [← hfs]; exact hg, he.symm⟩
    | some c =>
      rw [hg] at h
      obtain ⟨l1, p2, l2, hl, hn, he⟩ := ih _ e fsE h
      exact ⟨p :: l1, p2, l2, by rw [hl]; rfl, hn, he⟩

end DspaceCsvArchive

namespace DspaceCsvArchive

/-! ### `writeItem` lemmas -/

theorem pathJoin_right_injective {ip x y : String} (hx : isAbs x = false)
    (hy : isAbs y = false) (h : pathJoin ip x = pathJoin ip y) : x = y := by
  rw [pathJoin_not_abs hx, pathJoin_not_abs hy] at h
  by_cases h1 : ip = ("")
  · rw [if_pos h1, if_pos h1] at h
    exact h
  · rw [if_neg h1, if_neg h1] at h
    by_cases h2 : endsSlash ip
    · simp only [h2, if_true] at h
      have hd := congrArg String.data h
      rw [String.data_append, String.data_append] at hd
      exact str_data_ext (List.append_cancel_left hd)
    · simp only [h2, Bool.false_eq_true, if_false] at h
      have hd := congrArg String.data h
      rw [String.data_append, String.data_append, String.data_append,
        String.data_append, List.append_assoc, List.append_assoc] at hd
      exact str_data_ext (List.append_cancel_left (List.append_cancel_left hd))

theorem writeItem_eq (base dir : String) (i : Nat) (it : Item) (fs : FS) :
    writeItem base dir i it fs =
      match copyFiles base it (pathJoin dir (itemDirName i))
          (writeCollectionsFile it (pathJoin dir (itemDirName i))
            (writeContentsFile it (pathJoin dir (itemDirName i))
              (create_directory (pathJoin dir (itemDirName i)) fs))) with
      | Except.error e => Except.error e
      | Except.ok fs4 => Except.ok (writeMetadata it (pathJoin dir (itemDirName i)) fs4) := rfl

theorem writeItemCore_dirs (base ip : String) (it : Item) (fs3 : FS) :
    (stateOf (match copyFiles base it ip fs3 with
      | Except.error e => Except.error e
      | Except.ok fs4 => Except.ok (writeMetadata it ip fs4))).dirs = fs3.dirs := by
  cases hc : copyFiles base it ip fs3 with
  | error e =>
    have h2 := copyList_dirs base ip it.getFilePaths fs3
    rw [show copyList base ip it.getFilePaths fs3 = copyFiles base it ip fs3 from rfl,
      hc] at h2
    exact h2
  | ok fs4 =>
    have h2 := copyList_dirs base ip it.getFilePaths fs3
    rw [show copyList base ip it.getFilePaths fs3 = copyFiles base it ip fs3 from rfl,
      hc] at h2
    show (writeMetadata it ip fs4).dirs = fs3.dirs
    rw [writeMetadata_dirs]
    exact h2

theorem writeItem_dirs (base dir : String) (i : Nat) (it : Item) (fs : FS) :
    (stateOf (writeItem base dir i it fs)).dirs
      = (create_directory (pathJoin dir (itemDirName i)) fs).dirs := by
  rw [writeItem_eq]
  exact writeItemCore_dirs base (pathJoin dir (itemDirName i)) it _

theorem writeItemCore_getFile (base ip : String) (it : Item) (fs3 : FS) (q : String)
    (hcopy : ∀ p ∈ it.getFilePaths, pathJoin ip (basename p) ≠ q)
    (hmeta : ∀ s ∈ it.getUsedSchemas, pathJoin ip (metadataFilename s) ≠ q) :
    (stateOf (match copyFiles base it ip fs3 with
      | Except.error e => Except.error e
      | Except.ok fs4 => Except.ok (writeMetadata it ip fs4))).getFile q
      = fs3.getFile q := by
  cases hc : copyFiles base it ip fs3 with
  | error e =>
    have h2 := copyList_getFile_notin base ip q it.getFilePaths fs3 hcopy
    rw [show copyList base ip it.getFilePaths fs3 = copyFiles base it ip fs3 from rfl,
      hc] at h2
    exact h2
  | ok fs4 =>
    have h2 := copyList_getFile_notin base ip q it.getFilePaths fs3 hcopy
    rw [show copyList base ip it.getFilePaths fs3 = copyFiles base it ip fs3 from rfl,
      hc] at h2
    show (writeMetadata it ip fs4).getFile q = fs3.getFile q
    exact (writeMetadata_getFile_notin it ip q it.getUsedSchemas fs4 hmeta).trans h2

theorem writeItem_getFile (base dir : String) (i : Nat) (it : Item) (fs : FS) (q : String)
    (hcont : pathJoin (pathJoin dir (itemDirName i)) ("contents") ≠ q)
    (hcoll : pathJoin (pathJoin dir (itemDirName i)) ("collections") ≠ q)
    (hcopy : ∀ p ∈ it.getFilePaths, pathJoin (pathJoin dir (itemDirName i)) (basename p) ≠ q)
    (hmeta : ∀ s ∈ it.getUsedSchemas,
      pathJoin (pathJoin dir (itemDirName i)) (metadataFilename s) ≠ q) :
    (stateOf (writeItem base dir i it fs)).getFile q = fs.getFile q := by
  rw [writeItem_eq]
  have hcore := writeItemCore_getFile base (pathJoin dir (itemDirName i)) it
    (writeCollectionsFile it (pathJoin dir (itemDirName i))
      (writeContentsFile it (pathJoin dir (itemDirName i))
        (create_directory (pathJoin dir (itemDirName i)) fs))) q hcopy hmeta
  rw [hcore]
  exact (getFile_setFile_ne _ _ hcoll).trans
    ((getFile_setFile_ne _ _ hcont).trans (create_directory_getFile _ _ _))

theorem writeItemCore_getFile_isSome (base ip : String) (it : Item) (fs3 : FS)
    (q : String) (h : (fs3.getFile q).isSome) :
    ((stateOf (match copyFiles base it ip fs3 with
      | Except.error e => Except.error e
      | Except.ok fs4 => Except.ok (writeMetadata it ip fs4))).getFile q).isSome := by
  cases hc : copyFiles base it ip fs3 with
  | error e =>
    have h2 := copyList_getFile_isSome base ip q it.getFilePaths fs3 h
    rw [show copyList base ip it.getFilePaths fs3 = copyFiles base it ip fs3 from rfl,
      hc] at h2
    exact h2
  | ok fs4 =>
    have h2 := copyList_getFile_isSome base ip q it.getFilePaths fs3 h
    rw [show copyList base ip it.getFilePaths fs3 = copyFiles base it ip fs3 from rfl,
      hc] at h2
    exact writeMetadata_getFile_isSome it ip q it.getUsedSchemas fs4 h2

theorem writeItem_getFile_isSome (base dir : String) (i : Nat) (it : Item) (fs : FS)
    (q : String) (h : (fs.getFile q).isSome) :
    ((stateOf (writeItem base dir i it fs)).getFile q).isSome := by
  rw [writeItem_eq]
  apply writeItemCore_getFile_isSome
  apply getFile_isSome_setFile
  apply getFile_isSome_setFile
  rw [create_directory_getFile]
  exact h

end DspaceCsvArchive

namespace DspaceCsvArchive

/-! ### `writeItems` lemmas -/

theorem writeItems_cons_eq (base dir : String) (p : Nat × Item) (rest : List (Nat × Item))
    (fs : FS) : writeItems base dir (p :: rest) fs =
      match writeItem base dir p.1 p.2 fs with
      | Except.error e => Except.error e
      | Except.ok fs1 => writeItems base dir rest fs1 := rfl

theorem writeItems_ok_cons {base dir : String} {p : Nat × Item} {rest : List (Nat × Item)}
    {fs r : FS} (h : writeItems base dir (p :: rest) fs = Except.ok r) :
    ∃ fs1, writeItem base dir p.1 p.2 fs = Except.ok fs1
      ∧ writeItems base dir rest fs1 = Except.ok r := by
  rw [writeItems_cons_eq] at h
  cases hw : writeItem base dir p.1 p.2 fs with
  | error e => rw [hw] at h; cases h
  | ok fs1 => rw [hw] at h; exact ⟨fs1, rfl, h⟩

theorem writeItems_dirs_subset (base dir : String) : ∀ (ps : List (Nat × Item)) (fs : FS),
    fs.dirs ⊆ (stateOf (writeItems base dir ps fs)).dirs := by
  intro ps
  induction ps with
  | nil => intro fs; exact fun x hx => hx
  | cons p rest ih =>
    intro fs
    rw [writeItems_cons_eq]
    cases hw : writeItem base dir p.1 p.2 fs with
    | error e =>
      have h2 := writeItem_dirs base dir p.1 p.2 fs
      rw [hw] at h2
      show fs.dirs ⊆ (stateOf (Except.error e)).dirs
      rw [h2]
      exact dirs_subset_create_directory _ _
    | ok fs1 =>
      have h2 := writeItem_dirs base dir p.1 p.2 fs
      rw [hw] at h2
      have hsub : fs.dirs ⊆ fs1.dirs := by
        rw [show (stateOf (Except.ok fs1)).dirs = fs1.dirs from rfl] at h2
        rw [h2]
        exact dirs_subset_create_directory _ _
      exact hsub.trans (ih fs1)

theorem writeItems_getFile_isSome (base dir q : String) :
    ∀ (ps : List (Nat × Item)) (fs : FS), (fs.getFile q).isSome →
    ((stateOf (writeItems base dir ps fs)).getFile q).isSome := by
  intro ps
  induction ps with
  | nil => intro fs h; exact h
  | cons p rest ih =>
    intro fs h
    rw [writeItems_cons_eq]
    cases hw : writeItem base dir p.1 p.2 fs with
    | error e =>
      have h2 := writeItem_getFile_isSome base dir p.1 p.2 fs q h
      rw [hw] at h2
      exact h2
    | ok fs1 =>
      have h2 := writeItem_getFile_isSome base dir p.1 p.2 fs q h
      rw [hw] at h2
      exact ih fs1 h2

theorem writeItems_ok_dirs_length (base dir : String) :
    ∀ (ps : List (Nat × Item)) (fs r : FS),
    writeItems base dir ps fs = Except.ok r →
    (∀ p ∈ ps, pathJoin dir (itemDirName p.1) ∉ fs.dirs) →
    List.Pairwise (fun p p2 : Nat × Item =>
      pathJoin dir (itemDirName p.1) ≠ pathJoin dir (itemDirName p2.1)) ps →
    r.dirs.length = fs.dirs.length + ps.length := by
  intro ps
  induction ps with
  | nil =>
    intro fs r h _ _
    injection h with h2
    rw [← h2]
    rfl
  | cons p rest ih =>
    intro fs r h hfresh hpw
    obtain ⟨fs1, hw, hrest⟩ := writeItems_ok_cons h
    have hd := writeItem_dirs base dir p.1 p.2 fs
    rw [hw] at hd
    have hnew : fs.isDir (pathJoin dir (itemDirName p.1)) = false :=
      isDir_false_of_not_mem (hfresh p (List.mem_cons_self p rest))
    rw [show (stateOf (Except.ok fs1)).dirs = fs1.dirs from rfl,
      create_directory_dirs_of_new hnew] at hd
    have hfresh2 : ∀ p2 ∈ rest, pathJoin dir (itemDirName p2.1) ∉ fs1.dirs := by
      intro p2 hp2 hmem
      rw [hd] at hmem
      rcases List.mem_cons.mp hmem with heq | hmem2
      · exact (List.pairwise_cons.mp hpw).1 p2 hp2 heq.symm
      · exact hfresh p2 (List.mem_cons_of_mem p hp2) hmem2
    have hlen := ih fs1 r hrest hfresh2 (List.pairwise_cons.mp hpw).2
    rw [hlen, hd]
    simp [List.length_cons]
    omega

theorem writeItems_ok_itemdir_mem (base dir : String) :
    ∀ (ps : List (Nat × Item)) (fs r : FS), writeItems base dir ps fs = Except.ok r →
    ∀ p ∈ ps, pathJoin dir (itemDirName p.1) ∈ r.dirs := by
  intro ps
  induction ps with
  | nil => intro fs r _ p hp; cases hp
  | cons p0 rest ih =>
    intro fs r h p hp
    obtain ⟨fs1, hw, hrest⟩ := writeItems_ok_cons h
    rcases List.mem_cons.mp hp with heq | hmem
    · subst heq
      have hd := writeItem_dirs base dir p.1 p.2 fs
      rw [hw, show (stateOf (Except.ok fs1)).dirs = fs1.dirs from rfl] at hd
      have hmem1 : pathJoin dir (itemDirName p.1) ∈ fs1.dirs := by
        rw [hd]
        exact mem_dirs_create_directory _ _
      have hsub := writeItems_dirs_subset base dir rest fs1
      rw [hrest] at hsub
      exact hsub hmem1
    · exact ih fs1 r hrest p hmem

/-! ### Enumeration lemmas -/

theorem le_fst_of_mem_enumFrom {α : Type} :
    ∀ (l : List α) (k : Nat) (p : Nat × α), p ∈ List.enumFrom k l → k ≤ p.1 := by
  intro l
  induction l with
  | nil => intro k p hp; cases hp
  | cons a t ih =>
    intro k p hp
    rw [List.enumFrom_cons] at hp
    rcases List.mem_cons.mp hp with heq | hmem
    · rw [heq]
    · have := ih (k + 1) p hmem
      omega

theorem pairwise_fst_lt_enumFrom {α : Type} :
    ∀ (l : List α) (k : Nat),
    List.Pairwise (fun p p2 : Nat × α => p.1 < p2.1) (List.enumFrom k l) := by
  intro l
  induction l with
  | nil => intro k; exact List.Pairwise.nil
  | cons a t ih =>
    intro k
    rw [List.enumFrom_cons]
    exact List.Pairwise.cons
      (fun p hp => by have := le_fst_of_mem_enumFrom t (k + 1) p hp; omega) (ih (k + 1))

theorem pairwise_fst_lt_enum {α : Type} (l : List α) :
    List.Pairwise (fun p p2 : Nat × α => p.1 < p2.1) l.enum :=
  pairwise_fst_lt_enumFrom l 0

theorem mem_enumFrom_get {α : Type} :
    ∀ (l : List α) (k i : Nat) (h : i < l.length),
    (k + i, l.get ⟨i, h⟩) ∈ List.enumFrom k l := by
  intro l
  induction l with
  | nil =>
    intro k i h
    exact absurd h (by simp)
  | cons a t ih =>
    intro k i h
    cases i with
    | zero =>
      rw [List.enumFrom_cons]
      exact List.mem_cons_self _ _
    | succ i2 =>
      rw [List.enumFrom_cons]
      apply List.mem_cons_of_mem
      have h2 : i2 < t.length := by simpa using h
      have := ih (k + 1) i2 h2
      have heq : k + (i2 + 1) = (k + 1) + i2 := by omega
      rw [heq]
      exact this

theorem mem_enum_get {α : Type} (l : List α) (i : Nat) (h : i < l.length) :
    (i, l.get ⟨i, h⟩) ∈ l.enum := by
  have := mem_enumFrom_get l 0 i h
  rw [Nat.zero_add] at this
  exact this

end DspaceCsvArchive

namespace DspaceCsvArchive

/-! ### Manifest-string lemmas -/

theorem newline_data : (("\n") : String).data = ['\n'] := rfl

theorem manifest_fold_data (N : Nat) :
    ∀ (l : List String) (k : Nat) (acc : String), k + l.length ≤ N →
    ((List.enumFrom k l).foldl
        (fun acc p => acc ++ p.2 ++ (if p.1 < N then ("\n") else (""))) acc).data
      = acc.data ++ (l.map (fun s => s.data ++ ['\n'])).flatten := by
  intro l
  induction l with
  | nil => intro k acc _; simp
  | cons a t ih =>
    intro k acc h
    rw [List.enumFrom_cons, List.foldl_cons]
    have hk : k < N := by
      simp only [List.length_cons] at h
      omega
    have h2 : (k + 1) + t.length ≤ N := by
      simp only [List.length_cons] at h
      omega
    show ((List.enumFrom (k + 1) t).foldl
        (fun acc p => acc ++ p.2 ++ (if p.1 < N then ("\n") else ("")))
        (acc ++ a ++ (if k < N then ("\n") else ("")))).data
      = acc.data ++ ((a :: t).map (fun s => s.data ++ ['\n'])).flatten
    rw [if_pos hk, ih (k + 1) _ h2]
    simp [String.data_append, newline_data, List.append_assoc]

theorem manifestString_data (l : List String) :
    (manifestString l).data = (l.map (fun s => s.data ++ ['\n'])).flatten := by
  unfold manifestString
  have h := manifest_fold_data l.length l 0 ("") (by omega)
  rw [show List.enumFrom 0 l = l.enum from rfl] at h
  rw [h]
  rfl

theorem manifestString_nil : manifestString [] = ("") := rfl

theorem manifestString_cons_data (a : String) (t : List String) :
    (manifestString (a :: t)).data = a.data ++ '\n' :: (manifestString t).data := by
  rw [manifestString_data, manifestString_data]
  simp [List.append_assoc]

theorem manifestString_trailing_newline : ∀ (l : List String), l ≠ [] →
    ∃ s, manifestString l = s ++ ("\n") := by
  intro l
  induction l with
  | nil => intro h; exact absurd rfl h
  | cons a t ih =>
    intro _
    cases ht : t with
    | nil =>
      refine ⟨String.mk a.data, str_data_ext ?_⟩
      rw [manifestString_cons_data, String.data_append, newline_data]
      rfl
    | cons b t2 =>
      have hne : t ≠ [] := by rw [ht]; exact List.cons_ne_nil b t2
      obtain ⟨s, hs⟩ := ih hne
      refine ⟨a ++ ("\n") ++ s, str_data_ext ?_⟩
      rw [manifestString_cons_data, ← ht, hs]
      simp [String.data_append, newline_data, List.append_assoc]

theorem splitNl_ne_nil : ∀ (l : List Char), splitNl l ≠ [] := by
  intro l
  induction l with
  | nil => exact List.cons_ne_nil _ _
  | cons c rest ih =>
    simp only [splitNl]
    by_cases hc : c = '\n'
    · rw [if_pos hc]
      exact List.cons_ne_nil _ _
    · rw [if_neg hc]
      cases hs : splitNl rest with
      | nil => exact absurd hs ih
      | cons seg segs => exact List.cons_ne_nil _ _

theorem splitNl_no_newline_append : ∀ (w rest : List Char), '\n' ∉ w →
    splitNl (w ++ '\n' :: rest) = w :: splitNl rest := by
  intro w
  induction w with
  | nil =>
    intro rest _
    rw [List.nil_append]
    simp [splitNl]
  | cons c w2 ih =>
    intro rest h
    have hc : ¬ c = '\n' := fun he => h (he ▸ List.mem_cons_self c w2)
    rw [List.cons_append]
    simp only [splitNl]
    rw [if_neg hc, ih rest (fun hm => h (List.mem_cons_of_mem c hm))]

theorem splitNl_manifest : ∀ (l : List String), (∀ s ∈ l, '\n' ∉ s.data) →
    splitNl (manifestString l).data = l.map String.data ++ [[]] := by
  intro l
  induction l with
  | nil =>
    intro _
    rw [show (manifestString []).data = [] from rfl]
    rfl
  | cons a t ih =>
    intro h
    rw [manifestString_cons_data,
      splitNl_no_newline_append a.data _ (h a (List.mem_cons_self a t)),
      ih (fun s hs => h s (List.mem_cons_of_mem a hs))]
    rfl

end DspaceCsvArchive

namespace DspaceCsvArchive

/-! ### Contents-file preservation through the write loop -/

theorem writeItem_ok_inv {base dir : String} {i : Nat} {it : Item} {fs fs1 : FS}
    (h : writeItem base dir i it fs = Except.ok fs1) :
    ∃ fs4, copyFiles base it (pathJoin dir (itemDirName i))
        (writeCollectionsFile it (pathJoin dir (itemDirName i))
          (writeContentsFile it (pathJoin dir (itemDirName i))
            (create_directory (pathJoin dir (itemDirName i)) fs))) = Except.ok fs4
      ∧ fs1 = writeMetadata it (pathJoin dir (itemDirName i)) fs4 := by
  rw [writeItem_eq] at h
  cases hc : copyFiles base it (pathJoin dir (itemDirName i))
      (writeCollectionsFile it (pathJoin dir (itemDirName i))
        (writeContentsFile it (pathJoin dir (itemDirName i))
          (create_directory (pathJoin dir (itemDirName i)) fs))) with
  | error e => rw [hc] at h; cases h
  | ok fs4 =>
    rw [hc] at h
    injection h with h2
    exact ⟨fs4, rfl, h2.symm⟩

theorem writeItem_ok_contents (base dir : String) (i : Nat) (it : Item) (fs fs1 : FS)
    (hw : writeItem base dir i it fs = Except.ok fs1)
    (hb : ∀ fp ∈ it.getFilePaths, basename fp ≠ ("contents")) :
    fs1.getFile (pathJoin (pathJoin dir (itemDirName i)) ("contents"))
      = some (manifestString it.getFiles) := by
  obtain ⟨fs4, hc, hfs1⟩ := writeItem_ok_inv hw
  subst hfs1
  have hmeta : ∀ s ∈ it.getUsedSchemas,
      pathJoin (pathJoin dir (itemDirName i)) (metadataFilename s)
        ≠ pathJoin (pathJoin dir (itemDirName i)) ("contents") := by
    intro s _ heq
    exact metadataFilename_ne_contents s
      (pathJoin_right_injective (isAbs_metadataFilename s) isAbs_contents heq)
  have hm1 : (writeMetadata it (pathJoin dir (itemDirName i)) fs4).getFile
      (pathJoin (pathJoin dir (itemDirName i)) ("contents"))
      = fs4.getFile (pathJoin (pathJoin dir (itemDirName i)) ("contents")) :=
    writeMetadata_getFile_notin it (pathJoin dir (itemDirName i)) _
      it.getUsedSchemas fs4 hmeta
  rw [hm1]
  have hcopy : ∀ fp ∈ it.getFilePaths,
      pathJoin (pathJoin dir (itemDirName i)) (basename fp)
        ≠ pathJoin (pathJoin dir (itemDirName i)) ("contents") := by
    intro fp hfp heq
    exact hb fp hfp (pathJoin_right_injective (isAbs_basename fp) isAbs_contents heq)
  have h2 := copyList_getFile_notin base (pathJoin dir (itemDirName i))
    (pathJoin (pathJoin dir (itemDirName i)) ("contents")) it.getFilePaths
    (writeCollectionsFile it (pathJoin dir (itemDirName i))
      (writeContentsFile it (pathJoin dir (itemDirName i))
        (create_directory (pathJoin dir (itemDirName i)) fs))) hcopy
  rw [show copyList base (pathJoin dir (itemDirName i)) it.getFilePaths
      (writeCollectionsFile it (pathJoin dir (itemDirName i))
        (writeContentsFile it (pathJoin dir (itemDirName i))
          (create_directory (pathJoin dir (itemDirName i)) fs)))
      = copyFiles base it (pathJoin dir (itemDirName i))
        (writeCollectionsFile it (pathJoin dir (itemDirName i))
          (writeContentsFile it (pathJoin dir (itemDirName i))
            (create_directory (pathJoin dir (itemDirName i)) fs))) from rfl, hc] at h2
  rw [show (stateOf (Except.ok fs4)) = fs4 from rfl] at h2
  rw [h2]
  have hcoll : pathJoin (pathJoin dir (itemDirName i)) ("collections")
      ≠ pathJoin (pathJoin dir (itemDirName i)) ("contents") := by
    intro heq
    exact contents_ne_collections
      (pathJoin_right_injective isAbs_collections isAbs_contents heq).symm
  have h3 : (writeCollectionsFile it (pathJoin dir (itemDirName i))
      (writeContentsFile it (pathJoin dir (itemDirName i))
        (create_directory (pathJoin dir (itemDirName i)) fs))).getFile
      (pathJoin (pathJoin dir (itemDirName i)) ("contents"))
      = (writeContentsFile it (pathJoin dir (itemDirName i))
        (create_directory (pathJoin dir (itemDirName i)) fs)).getFile
      (pathJoin (pathJoin dir (itemDirName i)) ("contents")) :=
    getFile_setFile_ne _ _ hcoll
  rw [h3]
  exact getFile_setFile_same _ _ _

theorem writeItems_getFile_preserved (base dir q : String) :
    ∀ (ps : List (Nat × Item)) (fs : FS),
    (∀ p ∈ ps, pathJoin (pathJoin dir (itemDirName p.1)) ("contents") ≠ q
      ∧ pathJoin (pathJoin dir (itemDirName p.1)) ("collections") ≠ q
      ∧ (∀ fp ∈ p.2.getFilePaths,
          pathJoin (pathJoin dir (itemDirName p.1)) (basename fp) ≠ q)
      ∧ (∀ s ∈ p.2.getUsedSchemas,
          pathJoin (pathJoin dir (itemDirName p.1)) (metadataFilename s) ≠ q)) →
    (stateOf (writeItems base dir ps fs)).getFile q = fs.getFile q := by
  intro ps
  induction ps with
  | nil => intro fs _; rfl
  | cons p rest ih =>
    intro fs h
    obtain ⟨h1, h2, h3, h4⟩ := h p (List.mem_cons_self p rest)
    rw [writeItems_cons_eq]
    cases hw : writeItem base dir p.1 p.2 fs with
    | error e =>
      have hg := writeItem_getFile base dir p.1 p.2 fs q h1 h2 h3 h4
      rw [hw] at hg
      exact hg
    | ok fs1 =>
      have hg := writeItem_getFile base dir p.1 p.2 fs q h1 h2 h3 h4
      rw [hw] at hg
      rw [ih fs1 (fun p2 hp2 => h p2 (List.mem_cons_of_mem p hp2))]
      exact hg

theorem writeItems_ok_contents (base dir : String) :
    ∀ (ps : List (Nat × Item)) (fs r : FS),
    writeItems base dir ps fs = Except.ok r →
    List.Pairwise (fun p p2 : Nat × Item => p.1 ≠ p2.1) ps →
    (∀ p ∈ ps, ∀ fp ∈ p.2.getFilePaths, basename fp ≠ ("contents")) →
    ∀ p ∈ ps, r.getFile (pathJoin (pathJoin dir (itemDirName p.1)) ("contents"))
      = some (manifestString p.2.getFiles) := by
  intro ps
  induction ps with
  | nil => intro fs r _ _ _ p hp; cases hp
  | cons p0 rest ih =>
    intro fs r h hpw hb p hp
    obtain ⟨fs1, hw, hrest⟩ := writeItems_ok_cons h
    rcases List.mem_cons.mp hp with heq | hmem
    · subst heq
      have h1 := writeItem_ok_contents base dir p.1 p.2 fs fs1 hw
        (hb p (List.mem_cons_self p rest))
      have hcond : ∀ p2 ∈ rest,
          pathJoin (pathJoin dir (itemDirName p2.1)) ("contents")
            ≠ pathJoin (pathJoin dir (itemDirName p.1)) ("contents")
          ∧ pathJoin (pathJoin dir (itemDirName p2.1)) ("collections")
            ≠ pathJoin (pathJoin dir (itemDirName p.1)) ("contents")
          ∧ (∀ fp ∈ p2.2.getFilePaths,
              pathJoin (pathJoin dir (itemDirName p2.1)) (basename fp)
                ≠ pathJoin (pathJoin dir (itemDirName p.1)) ("contents"))
          ∧ (∀ s ∈ p2.2.getUsedSchemas,
              pathJoin (pathJoin dir (itemDirName p2.1)) (metadataFilename s)
                ≠ pathJoin (pathJoin dir (itemDirName p.1)) ("contents")) := by
        intro p2 hp2
        have hne : p2.1 ≠ p.1 := fun he =>
          (List.pairwise_cons.mp hpw).1 p2 hp2 he.symm
        exact ⟨artifact_path_ne hne isAbs_contents isAbs_contents,
          artifact_path_ne hne isAbs_collections isAbs_contents,
          fun fp _ => artifact_path_ne hne (isAbs_basename fp) isAbs_contents,
          fun s _ => artifact_path_ne hne (isAbs_metadataFilename s) isAbs_contents⟩
      have hpres := writeItems_getFile_preserved base dir
        (pathJoin (pathJoin dir (itemDirName p.1)) ("contents")) rest fs1 hcond
      rw [hrest, show stateOf (Except.ok r) = r from rfl] at hpres
      rw [hpres]
      exact h1
    · exact ih fs1 r hrest (List.pairwise_cons.mp hpw).2
        (fun p2 hp2 => hb p2 (List.mem_cons_of_mem p0 hp2)) p hmem

end DspaceCsvArchive

namespace DspaceCsvArchive

/-! ### Comment stripping lemmas -/

theorem beforeHash_data (row : String) :
    (beforeHash row).data = row.data.takeWhile (fun c => c ≠ '#') := rfl

theorem pyStrip_data (s : String) : (pyStrip s).data =
    ((s.data.dropWhile Char.isWhitespace).reverse.dropWhile Char.isWhitespace).reverse := rfl

theorem strip_line_append_hash (a b : List Char) (ha : '#' ∉ a) :
    strip_line (String.mk (a ++ '#' :: b)) = pyStrip (String.mk a) := by
  unfold strip_line
  apply congrArg pyStrip
  apply str_data_ext
  rw [show (beforeHash (String.mk (a ++ '#' :: b))).data
      = (a ++ '#' :: b).takeWhile (fun c => c ≠ '#') from rfl,
    takeWhile_append_all (fun c => decide (c ≠ '#')) a ('#' :: b)
      (fun c hc => decide_eq_true (fun he : c = '#' => ha (he ▸ hc))),
    List.takeWhile_cons]
  simp

theorem pyStrip_head_not_ws (s : String) (c : Char)
    (h : (pyStrip s).data.head? = some c) : c.isWhitespace = false := by
  rw [pyStrip_data] at h
  have hsplit := List.takeWhile_append_dropWhile Char.isWhitespace
    (s.data.dropWhile Char.isWhitespace).reverse
  have ht2 : s.data.dropWhile Char.isWhitespace
      = ((s.data.dropWhile Char.isWhitespace).reverse.dropWhile Char.isWhitespace).reverse
        ++ ((s.data.dropWhile Char.isWhitespace).reverse.takeWhile Char.isWhitespace).reverse := by
    have h2 := congrArg List.reverse hsplit
    rw [List.reverse_append, List.reverse_reverse] at h2
    exact h2.symm
  have hth : (s.data.dropWhile Char.isWhitespace).head? = some c := by
    rw [ht2, List.head?_append, h]
    exact some_or_eq c _
  exact head?_dropWhile_not Char.isWhitespace s.data c hth

theorem pyStrip_getLast_not_ws (s : String) (c : Char)
    (h : (pyStrip s).data.getLast? = some c) : c.isWhitespace = false := by
  rw [pyStrip_data, List.getLast?_reverse] at h
  exact head?_dropWhile_not Char.isWhitespace _ c h

theorem mem_pyStrip (s : String) (c : Char) (h : c ∈ (pyStrip s).data) : c ∈ s.data := by
  rw [pyStrip_data, List.mem_reverse] at h
  have h2 : c ∈ (s.data.dropWhile Char.isWhitespace).reverse :=
    List.Sublist.mem h (List.dropWhile_sublist Char.isWhitespace)
  rw [List.mem_reverse] at h2
  exact List.Sublist.mem h2 (List.dropWhile_sublist Char.isWhitespace)

theorem hash_not_mem_strip_line (row : String) : '#' ∉ (strip_line row).data := by
  intro h
  have h2 := mem_pyStrip (beforeHash row) '#' h
  rw [beforeHash_data] at h2
  have h3 := List.mem_takeWhile_imp h2
  simp at h3

theorem strip_line_full_comment (t : List Char) :
    strip_line (String.mk ('#' :: t)) = ("") := by
  unfold strip_line
  have h1 : beforeHash (String.mk ('#' :: t)) = ("") := by
    apply str_data_ext
    rw [show (beforeHash (String.mk ('#' :: t))).data
      = ('#' :: t).takeWhile (fun c => c ≠ '#') from rfl, List.takeWhile_cons]
    simp
  rw [h1]
  rfl

theorem strip_csv_comments_drop (xs ys : List String) (row : String)
    (h : strip_line row = ("")) :
    strip_csv_comments (xs ++ row :: ys) = strip_csv_comments (xs ++ ys) := by
  induction xs with
  | nil =>
    rw [List.nil_append, List.nil_append]
    simp only [strip_csv_comments, h]
    simp
  | cons x xs2 ih =>
    rw [List.cons_append, List.cons_append]
    simp only [strip_csv_comments]
    rw [ih]

theorem mem_strip_csv_comments : ∀ (lines : List String) (l : String),
    l ∈ strip_csv_comments lines → ∃ row ∈ lines, l = strip_line row ∧ l ≠ ("") := by
  intro lines
  induction lines with
  | nil => intro l hl; cases hl
  | cons row rest ih =>
    intro l hl
    simp only [strip_csv_comments] at hl
    by_cases h : strip_line row ≠ ("")
    · rw [if_pos h] at hl
      rcases List.mem_cons.mp hl with he | hmem
      · exact ⟨row, List.mem_cons_self row rest, he, he ▸ h⟩
      · obtain ⟨r2, hr2, he2, hne⟩ := ih l hmem
        exact ⟨r2, List.mem_cons_of_mem row hr2, he2, hne⟩
    · rw [if_neg h] at hl
      obtain ⟨r2, hr2, he2, hne⟩ := ih l hl
      exact ⟨r2, List.mem_cons_of_mem row hr2, he2, hne⟩

theorem splitSemi_ne_nil : ∀ (l : List Char), splitSemi l ≠ [] := by
  intro l
  induction l with
  | nil => exact List.cons_ne_nil _ _
  | cons c rest ih =>
    simp only [splitSemi]
    by_cases hc : c = ';'
    · rw [if_pos hc]
      exact List.cons_ne_nil _ _
    · rw [if_neg hc]
      cases hs : splitSemi rest with
      | nil => exact absurd hs ih
      | cons seg segs => exact List.cons_ne_nil _ _

theorem mem_splitSemi_mem : ∀ (l : List Char) (f : List Char), f ∈ splitSemi l →
    ∀ c ∈ f, c ∈ l := by
  intro l
  induction l with
  | nil =>
    intro f hf c hc
    simp only [splitSemi, List.mem_singleton] at hf
    subst hf
    cases hc
  | cons a rest ih =>
    intro f hf c hc
    simp only [splitSemi] at hf
    by_cases hsep : a = ';'
    · rw [if_pos hsep] at hf
      rcases List.mem_cons.mp hf with he | hmem
      · subst he; cases hc
      · exact List.mem_cons_of_mem a (ih f hmem c hc)
    · rw [if_neg hsep] at hf
      cases hs : splitSemi rest with
      | nil => exact absurd hs (splitSemi_ne_nil rest)
      | cons seg segs =>
        rw [hs] at hf
        rcases List.mem_cons.mp hf with he | hmem
        · subst he
          rcases List.mem_cons.mp hc with hche | hcm
          · subst hche; exact List.mem_cons_self c rest
          · have hseg : seg ∈ splitSemi rest := by
              rw [hs]; exact List.mem_cons_self seg segs
            exact List.mem_cons_of_mem a (ih seg hseg c hcm)
        · have hf2 : f ∈ splitSemi rest := by
            rw [hs]; exact List.mem_cons_of_mem seg hmem
          exact List.mem_cons_of_mem a (ih f hf2 c hc)

theorem parse_csv_line_no_hash {l : String} (hl : '#' ∉ l.data) :
    ∀ f ∈ parse_csv_line l, '#' ∉ f.data := by
  intro f hf hmem
  unfold parse_csv_line at hf
  obtain ⟨seg, hseg, hfeq⟩ := List.mem_map.mp hf
  rw [← hfeq] at hmem
  exact hl (mem_splitSemi_mem l.data seg hseg '#' hmem)

end DspaceCsvArchive

namespace DspaceCsvArchive

/-! ### Remaining helpers -/

theorem snd_mem_of_mem_enumFrom {α : Type} :
    ∀ (l : List α) (k : Nat) (p : Nat × α), p ∈ List.enumFrom k l → p.2 ∈ l := by
  intro l
  induction l with
  | nil => intro k p hp; cases hp
  | cons a t ih =>
    intro k p hp
    rw [List.enumFrom_cons] at hp
    rcases List.mem_cons.mp hp with he | hmem
    · rw [he]
      exact List.mem_cons_self a t
    · exact List.mem_cons_of_mem a (ih (k + 1) p hmem)

theorem fst_lt_of_mem_enumFrom {α : Type} :
    ∀ (l : List α) (k : Nat) (p : Nat × α), p ∈ List.enumFrom k l →
    p.1 < k + l.length := by
  intro l
  induction l with
  | nil => intro k p hp; cases hp
  | cons a t ih =>
    intro k p hp
    rw [List.enumFrom_cons] at hp
    rcases List.mem_cons.mp hp with he | hmem
    · rw [he]
      simp [List.length_cons]
    · have := ih (k + 1) p hmem
      simp only [List.length_cons]
      omega

theorem writeMetadata_fold_getFile (it : Item) (ip : String) :
    ∀ (l : List String) (fs : FS) (s : String), s ∈ l →
    (l.foldl (fun fs schema =>
        fs.setFile (pathJoin ip (metadataFilename schema)) (it.toXML schema)) fs).getFile
      (pathJoin ip (metadataFilename s)) = some (it.toXML s) := by
  intro l
  induction l with
  | nil => intro fs s hs; cases hs
  | cons u t ih =>
    intro fs s hs
    rw [List.foldl_cons]
    by_cases hmem : s ∈ t
    · exact ih _ s hmem
    · have hsu : s = u := by
        rcases List.mem_cons.mp hs with he | hm
        · exact he
        · exact absurd hm hmem
      subst hsu
      have hcond : ∀ u2 ∈ t, pathJoin ip (metadataFilename u2)
          ≠ pathJoin ip (metadataFilename s) := by
        intro u2 hu2 heq
        have h2 := metadataFilename_injective (pathJoin_right_injective
          (isAbs_metadataFilename u2) (isAbs_metadataFilename s) heq)
        exact hmem (h2 ▸ hu2)
      rw [writeMetadata_getFile_notin it ip _ t _ hcond]
      exact getFile_setFile_same _ _ _

theorem mem_manifest_writes (N : Nat) :
    ∀ (l : List (Nat × String)) (e : HEvent),
    e ∈ l.foldr (fun p acc =>
      HEvent.writeH :: (if p.1 < N then HEvent.writeH :: acc else acc)) [] →
    e = HEvent.writeH := by
  intro l
  induction l with
  | nil => intro e he; cases he
  | cons p t ih =>
    intro e he
    rw [List.foldr_cons] at he
    rcases List.mem_cons.mp he with h1 | h2
    · exact h1
    · by_cases hp : p.1 < N
      · rw [if_pos hp] at h2
        rcases List.mem_cons.mp h2 with h3 | h4
        · exact h3
        · exact ih e h4
      · rw [if_neg hp] at h2
        exact ih e h2

theorem contentsEvents_closed_none (files : List String) :
    handleClosedOnExit (contentsEvents files) none := by
  show HEvent.closeH ∈ contentsEvents files
  unfold contentsEvents
  exact List.mem_cons_of_mem _ (List.mem_append_right _ (List.mem_singleton_self _))

theorem contentsEvents_not_closed_fail (files : List String) (k : Nat)
    (hk : k < (contentsEvents files).length) :
    ¬ handleClosedOnExit (contentsEvents files) (some k) := by
  intro h
  have hmem : HEvent.closeH ∈ (contentsEvents files).take k := h
  unfold contentsEvents at hmem hk
  rw [List.length_append, List.length_singleton] at hk
  rw [List.take_append_of_le_length (by omega)] at hmem
  have hm2 := List.take_subset k _ hmem
  rcases List.mem_cons.mp hm2 with h1 | h2
  · cases h1
  · cases mem_manifest_writes files.length files.enum HEvent.closeH h2

end DspaceCsvArchive

namespace DspaceCsvArchive

/-! ### The claims -/

/-- C1: for every valid input (a header line survives comment stripping) the
archive holds exactly one item per surviving data row, and a successful
`DspaceArchive.write` into a fresh filesystem creates exactly one directory
per item plus the output root, so the number of item directories equals the
number of non-blank, non-comment data rows. -/
theorem C1_item_count (mkItem : List String → List String → Item)
    (input_path : String) (lines : List String) (header : String)
    (rows : List String) (a : DspaceArchive) (dir : String) (fs0 r : FS)
    (hstrip : strip_csv_comments lines = header :: rows)
    (hinit : DspaceArchive.init mkItem input_path lines = some a)
    (hfs0 : fs0.dirs = [])
    (hok : a.write dir fs0 = Except.ok r) :
    a.items.length = rows.length ∧ r.dirs.length = rows.length + 1 := by
  unfold DspaceArchive.init at hinit
  rw [hstrip] at hinit
  injection hinit with hinit2
  have hitems : a.items
      = rows.map (fun r2 => mkItem (parse_csv_line header) (parse_csv_line r2)) := by
    rw [← hinit2]
  have hlen : a.items.length = rows.length := by
    rw [hitems, List.length_map]
  refine ⟨hlen, ?_⟩
  unfold DspaceArchive.write at hok
  have hroot : fs0.isDir dir = false :=
    isDir_false_of_not_mem (by rw [hfs0]; exact List.not_mem_nil dir)
  have hcd : (create_directory dir fs0).dirs = [dir] := by
    rw [create_directory_dirs_of_new hroot, hfs0]
  have hfresh : ∀ p ∈ a.items.enum,
      pathJoin dir (itemDirName p.1) ∉ (create_directory dir fs0).dirs := by
    intro p _ hmem
    rw [hcd] at hmem
    exact itemPath_ne_dir p.1 (List.mem_singleton.mp hmem)
  have hpw : List.Pairwise (fun p p2 : Nat × Item =>
      pathJoin dir (itemDirName p.1) ≠ pathJoin dir (itemDirName p2.1)) a.items.enum :=
    List.Pairwise.imp
      (fun hlt heq => Nat.ne_of_lt hlt (itemPath_injective heq))
      (pairwise_fst_lt_enum a.items)
  have hcount := writeItems_ok_dirs_length a.input_base_path dir a.items.enum
    (create_directory dir fs0) r hok hfresh hpw
  rw [hcount, hcd, List.enum_length, hlen]
  simp only [List.length_singleton]
  omega

/-- Witness for C1 at a concrete input: one header line, no data rows; the
write creates only the output root. -/
theorem C1_item_count_witness :
    strip_csv_comments [("h")] = ("h") :: []
    ∧ DspaceArchive.init (fun _ _ => ⟨[], [], [], [], fun _ => ("")⟩)
        ("in.csv") [("h")] = some ⟨[], ("")⟩
    ∧ (⟨[], []⟩ : FS).dirs = []
    ∧ DspaceArchive.write ⟨[], ("")⟩ ("out") ⟨[], []⟩
        = Except.ok ⟨[("out")], []⟩
    ∧ (⟨[], ("")⟩ : DspaceArchive).items.length = ([] : List String).length
    ∧ (⟨[("out")], []⟩ : FS).dirs.length = ([] : List String).length + 1 := by
  have h := C1_item_count (fun _ _ => ⟨[], [], [], [], fun _ => ("")⟩)
    ("in.csv") [("h")] ("h") [] ⟨[], ("")⟩ ("out") ⟨[], []⟩ ⟨[("out")], []⟩
    rfl rfl rfl rfl
  exact ⟨rfl, rfl, rfl, rfl, h.1, h.2⟩

/-- C2: item `i` (0-based) is written to the directory named
`item_` followed by `i+1` zero-padded to width 3 under the output root,
the root is created if absent, and each item's own manifest is found in its
own directory, so the input order is preserved one-to-one. -/
theorem C2_directory_naming (a : DspaceArchive) (dir : String) (fs0 r : FS)
    (hok : a.write dir fs0 = Except.ok r)
    (hb : ∀ it ∈ a.items, ∀ fp ∈ it.getFilePaths, basename fp ≠ ("contents"))
    (i : Nat) (hi : i < a.items.length) :
    itemDirName i = ("item_") ++ pad3 (i + 1)
    ∧ itemDirName 0 = ("item_001") ∧ itemDirName 1 = ("item_002")
    ∧ dir ∈ r.dirs
    ∧ pathJoin dir (itemDirName i) ∈ r.dirs
    ∧ r.getFile (pathJoin (pathJoin dir (itemDirName i)) ("contents"))
        = some (manifestString (a.items.get ⟨i, hi⟩).getFiles) := by
  unfold DspaceArchive.write at hok
  refine ⟨rfl, rfl, rfl, ?_, ?_, ?_⟩
  · have hsub := writeItems_dirs_subset a.input_base_path dir a.items.enum
      (create_directory dir fs0)
    rw [hok] at hsub
    exact hsub (mem_dirs_create_directory dir fs0)
  · exact writeItems_ok_itemdir_mem a.input_base_path dir a.items.enum _ r hok
      (i, a.items.get ⟨i, hi⟩) (mem_enum_get a.items i hi)
  · have hpw : List.Pairwise (fun p p2 : Nat × Item => p.1 ≠ p2.1) a.items.enum :=
      List.Pairwise.imp (fun h => Nat.ne_of_lt h) (pairwise_fst_lt_enum a.items)
    have hb2 : ∀ p ∈ a.items.enum, ∀ fp ∈ p.2.getFilePaths, basename fp ≠ ("contents") :=
      fun p hp => hb p.2 (snd_mem_of_mem_enumFrom a.items 0 p hp)
    exact writeItems_ok_contents a.input_base_path dir a.items.enum _ r hok hpw hb2
      (i, a.items.get ⟨i, hi⟩) (mem_enum_get a.items i hi)

/-- Witness for C2 at a concrete one-item archive written into a fresh root. -/
theorem C2_directory_naming_witness :
    DspaceArchive.write ⟨[⟨[], [], [], [], fun _ => ("")⟩], ("")⟩ ("out") ⟨[], []⟩
      = Except.ok ⟨[("out/item_001"), ("out")],
          [(("out/item_001/collections"), ("")), (("out/item_001/contents"), (""))]⟩
    ∧ (0 : Nat) < 1
    ∧ (("out") ∈ (⟨[("out/item_001"), ("out")],
          [(("out/item_001/collections"), ("")), (("out/item_001/contents"), (""))]⟩ : FS).dirs
      ∧ pathJoin ("out") (itemDirName 0) ∈ (⟨[("out/item_001"), ("out")],
          [(("out/item_001/collections"), ("")), (("out/item_001/contents"), (""))]⟩ : FS).dirs) := by
  have h := C2_directory_naming ⟨[⟨[], [], [], [], fun _ => ("")⟩], ("")⟩ ("out")
    ⟨[], []⟩ ⟨[("out/item_001"), ("out")],
      [(("out/item_001/collections"), ("")), (("out/item_001/contents"), (""))]⟩
    rfl
    (by intro it hit fp hfp
        simp only [List.mem_singleton] at hit
        subst hit
        cases hfp)
    0 (by decide)
  exact ⟨rfl, by decide, h.2.2.2.1, h.2.2.2.2.1⟩

end DspaceCsvArchive

namespace DspaceCsvArchive

/-- C3: `writeContentsFile` writes the file named `contents` holding the
item's content filenames and `writeCollectionsFile` the file named
`collections` holding its collection names; an empty list yields an empty
file, and for newline-free names the file splits into exactly one name per
line, in order, with no blank lines between them. -/
theorem C3_manifests (it : Item) (ip : String) (fs : FS) :
    (writeContentsFile it ip fs).getFile (pathJoin ip ("contents"))
      = some (manifestString it.getFiles)
    ∧ (writeCollectionsFile it ip fs).getFile (pathJoin ip ("collections"))
      = some (manifestString it.getCollections)
    ∧ manifestString [] = ("")
    ∧ (∀ l : List String, (∀ s ∈ l, '\n' ∉ s.data) →
        splitNl (manifestString l).data = l.map String.data ++ [[]]) :=
  ⟨getFile_setFile_same _ _ _, getFile_setFile_same _ _ _, rfl, splitNl_manifest⟩

/-- Witness for C3 at a concrete item with one content filename. -/
theorem C3_manifests_witness :
    (writeContentsFile ⟨[("a")], [], [], [], fun _ => ("")⟩ ("d") ⟨[], []⟩).getFile
        (pathJoin ("d") ("contents")) = some (manifestString [("a")])
    ∧ splitNl (manifestString [("a")]).data
        = [(("a") : String)].map String.data ++ [[]] := by
  have h := C3_manifests ⟨[("a")], [], [], [], fun _ => ("")⟩ ("d") ⟨[], []⟩
  refine ⟨h.1, h.2.2.2 [("a")] ?_⟩
  intro s hs
  simp only [List.mem_singleton] at hs
  subst hs
  decide

/-- C4: a `#` anywhere in a line truncates it there before parsing, a line
whose stripped form is empty is dropped entirely, and since
`strip_csv_comments` wraps the file before the header is read, inserting a
full-line comment anywhere in the input leaves the parsed archive unchanged
(zero rows contributed). -/
theorem C4_comment_lines :
    (∀ (a b : List Char), '#' ∉ a →
      strip_line (String.mk (a ++ '#' :: b)) = pyStrip (String.mk a))
    ∧ (∀ t : List Char, strip_line (String.mk ('#' :: t)) = (""))
    ∧ (∀ (xs ys : List String) (row : String), strip_line row = ("") →
        strip_csv_comments (xs ++ row :: ys) = strip_csv_comments (xs ++ ys))
    ∧ (∀ (mkItem : List String → List String → Item) (input_path : String)
        (xs ys : List String) (t : List Char),
        DspaceArchive.init mkItem input_path (xs ++ (String.mk ('#' :: t)) :: ys)
          = DspaceArchive.init mkItem input_path (xs ++ ys)) := by
  refine ⟨strip_line_append_hash, strip_line_full_comment, strip_csv_comments_drop, ?_⟩
  intro mkItem input_path xs ys t
  unfold DspaceArchive.init
  rw [strip_csv_comments_drop xs ys _ (strip_line_full_comment t)]

/-- Witness for C4 at concrete lines: the comment line between header and
data row contributes nothing. -/
theorem C4_comment_lines_witness :
    ('#' ∉ ['a'])
    ∧ strip_line (String.mk (['a'] ++ '#' :: ['b'])) = pyStrip (String.mk ['a'])
    ∧ strip_line (String.mk ('#' :: ['z'])) = ("")
    ∧ DspaceArchive.init (fun _ _ => ⟨[], [], [], [], fun _ => ("")⟩) ("in.csv")
        ([("h")] ++ (String.mk ('#' :: ['z'])) :: [("r")])
      = DspaceArchive.init (fun _ _ => ⟨[], [], [], [], fun _ => ("")⟩) ("in.csv")
        ([("h")] ++ [("r")]) := by
  have h := C4_comment_lines
  exact ⟨by decide, h.1 ['a'] ['b'] (by decide), h.2.1 ['z'],
    h.2.2.2 (fun _ _ => ⟨[], [], [], [], fun _ => ("")⟩) ("in.csv") [("h")] [("r")] ['z']⟩

/-- C5: `writeMetadata` writes one file per schema the item uses: schema
`dc` goes to the fixed name `dublin_core.xml` and any other schema `s` to
`metadata_` ++ s ++ `.xml`, each holding that schema's serialization. -/
theorem C5_metadata_filenames (it : Item) (ip : String) (fs : FS) :
    metadataFilename ("dc") = ("dublin_core.xml")
    ∧ (∀ s : String, ¬ s = ("dc") →
        metadataFilename s = ("metadata_") ++ s ++ (".xml"))
    ∧ (∀ s ∈ it.getUsedSchemas,
        (writeMetadata it ip fs).getFile (pathJoin ip (metadataFilename s))
          = some (it.toXML s)) := by
  refine ⟨rfl, ?_, ?_⟩
  · intro s hs
    unfold metadataFilename
    rw [if_neg hs]
  · intro s hs
    exact writeMetadata_fold_getFile it ip it.getUsedSchemas fs s hs

/-- Witness for C5 at a concrete item using the schemas `dc` and `etd`. -/
theorem C5_metadata_filenames_witness :
    metadataFilename ("dc") = ("dublin_core.xml")
    ∧ metadataFilename ("etd") = ("metadata_etd.xml")
    ∧ (writeMetadata ⟨[], [], [], [("dc"), ("etd")], fun s => s⟩ ("d") ⟨[], []⟩).getFile
        (pathJoin ("d") (metadataFilename ("etd"))) = some ("etd") := by
  have h := C5_metadata_filenames ⟨[], [], [], [("dc"), ("etd")], fun s => s⟩ ("d") ⟨[], []⟩
  refine ⟨h.1, by decide, ?_⟩
  exact h.2.2 ("etd") (by decide)

/-- C6: when a referenced content file is missing (the copy step fails),
the whole write loop aborts at that point: the result is the same error no
matter what later items remain, the error names a referenced source path
that does not exist in the state at failure, and the partially written
output (the item directory, all previously created directories, and all
previously written files) is left in place with no rollback. -/
theorem C6_missing_file_aborts (base dir : String) (i : Nat) (it : Item)
    (rest : List (Nat × Item)) (fs : FS) (e : String) (fsE : FS)
    (hc : copyFiles base it (pathJoin dir (itemDirName i))
        (writeCollectionsFile it (pathJoin dir (itemDirName i))
          (writeContentsFile it (pathJoin dir (itemDirName i))
            (create_directory (pathJoin dir (itemDirName i)) fs)))
      = Except.error (e, fsE)) :
    writeItems base dir ((i, it) :: rest) fs = Except.error (e, fsE)
    ∧ (∀ rest2, writeItems base dir ((i, it) :: rest2) fs = Except.error (e, fsE))
    ∧ (∃ l1 p l2, it.getFilePaths = l1 ++ p :: l2
        ∧ fsE.getFile (pathJoin base p) = none ∧ e = pathJoin base p)
    ∧ fs.dirs ⊆ fsE.dirs
    ∧ pathJoin dir (itemDirName i) ∈ fsE.dirs
    ∧ (∀ q, (fs.getFile q).isSome → (fsE.getFile q).isSome) := by
  have herr : writeItem base dir i it fs = Except.error (e, fsE) := by
    rw [writeItem_eq, hc]
  have hdirs : fsE.dirs = (create_directory (pathJoin dir (itemDirName i)) fs).dirs := by
    have h2 := copyList_dirs base (pathJoin dir (itemDirName i)) it.getFilePaths
      (writeCollectionsFile it (pathJoin dir (itemDirName i))
        (writeContentsFile it (pathJoin dir (itemDirName i))
          (create_directory (pathJoin dir (itemDirName i)) fs)))
    rw [show copyList base (pathJoin dir (itemDirName i)) it.getFilePaths
        (writeCollectionsFile it (pathJoin dir (itemDirName i))
          (writeContentsFile it (pathJoin dir (itemDirName i))
            (create_directory (pathJoin dir (itemDirName i)) fs)))
      = copyFiles base it (pathJoin dir (itemDirName i))
        (writeCollectionsFile it (pathJoin dir (itemDirName i))
          (writeContentsFile it (pathJoin dir (itemDirName i))
            (create_directory (pathJoin dir (itemDirName i)) fs))) from rfl, hc] at h2
    exact h2
  refine ⟨?_, ?_, ?_, ?_, ?_, ?_⟩
  · rw [writeItems_cons_eq, herr]
  · intro rest2
    rw [writeItems_cons_eq, herr]
  · exact copyList_error_shape base (pathJoin dir (itemDirName i)) it.getFilePaths _ e fsE hc
  · rw [hdirs]
    exact dirs_subset_create_directory _ _
  · rw [hdirs]
    exact mem_dirs_create_directory _ _
  · intro q hq
    have hpre : ((writeCollectionsFile it (pathJoin dir (itemDirName i))
        (writeContentsFile it (pathJoin dir (itemDirName i))
          (create_directory (pathJoin dir (itemDirName i)) fs))).getFile q).isSome := by
      apply getFile_isSome_setFile
      apply getFile_isSome_setFile
      rw [create_directory_getFile]
      exact hq
    have h2 := copyList_getFile_isSome base (pathJoin dir (itemDirName i)) q
      it.getFilePaths (writeCollectionsFile it (pathJoin dir (itemDirName i))
        (writeContentsFile it (pathJoin dir (itemDirName i))
          (create_directory (pathJoin dir (itemDirName i)) fs))) hpre
    rw [show copyList base (pathJoin dir (itemDirName i)) it.getFilePaths
        (writeCollectionsFile it (pathJoin dir (itemDirName i))
          (writeContentsFile it (pathJoin dir (itemDirName i))
            (create_directory (pathJoin dir (itemDirName i)) fs)))
      = copyFiles base it (pathJoin dir (itemDirName i))
        (writeCollectionsFile it (pathJoin dir (itemDirName i))
          (writeContentsFile it (pathJoin dir (itemDirName i))
            (create_directory (pathJoin dir (itemDirName i)) fs))) from rfl, hc] at h2
    exact h2

end DspaceCsvArchive

namespace DspaceCsvArchive

/-- Witness for C6 at a concrete run: one item referencing `x.png`, which
does not exist; the loop errors and the item directory is left behind. -/
theorem C6_missing_file_aborts_witness :
    writeItems ("") ("out") [(0, ⟨[], [("x.png")], [], [], fun _ => ("")⟩)] ⟨[], []⟩
      = Except.error ((("x.png"), (⟨[("out/item_001")],
          [(("out/item_001/collections"), ("")), (("out/item_001/contents"), (""))]⟩ : FS)))
    ∧ pathJoin ("out") (itemDirName 0) ∈ (⟨[("out/item_001")],
        [(("out/item_001/collections"), ("")), (("out/item_001/contents"), (""))]⟩ : FS).dirs := by
  have h := C6_missing_file_aborts ("") ("out") 0 ⟨[], [("x.png")], [], [], fun _ => ("")⟩
    [] ⟨[], []⟩ ("x.png") ⟨[("out/item_001")],
      [(("out/item_001/collections"), ("")), (("out/item_001/contents"), (""))]⟩ rfl
  exact ⟨h.1, h.2.2.2.2.1⟩

/-- C7: `create_directory` creates a directory only when it is absent and
never removes anything (files untouched, directory list only grows), the
whole writer only grows the directory list and never deletes an existing
file, and writing to an existing path overwrites its content. -/
theorem C7_non_purging (p q : String) (fs : FS) (a : DspaceArchive) (dir : String) :
    (fs.isDir p = true → create_directory p fs = fs)
    ∧ (fs.isDir p = false → (create_directory p fs).dirs = p :: fs.dirs)
    ∧ (create_directory p fs).files = fs.files
    ∧ fs.dirs ⊆ (create_directory p fs).dirs
    ∧ fs.dirs ⊆ (stateOf (a.write dir fs)).dirs
    ∧ ((fs.getFile q).isSome → ((stateOf (a.write dir fs)).getFile q).isSome)
    ∧ (∀ c : String, (fs.setFile p c).getFile p = some c) := by
  refine ⟨fun h => create_directory_of_isDir h, fun h => create_directory_dirs_of_new h,
    create_directory_files p fs, dirs_subset_create_directory p fs, ?_, ?_,
    fun c => getFile_setFile_same fs p c⟩
  · show fs.dirs ⊆ (stateOf (writeItems a.input_base_path dir a.items.enum
      (create_directory dir fs))).dirs
    exact (dirs_subset_create_directory dir fs).trans
      (writeItems_dirs_subset a.input_base_path dir a.items.enum
        (create_directory dir fs))
  · intro hq
    show ((stateOf (writeItems a.input_base_path dir a.items.enum
      (create_directory dir fs))).getFile q).isSome
    apply writeItems_getFile_isSome
    rw [create_directory_getFile]
    exact hq

/-- Witness for C7 at a concrete filesystem already holding the directory
`d` and the file `f`. -/
theorem C7_non_purging_witness :
    (⟨[("d")], [(("f"), ("x"))]⟩ : FS).isDir ("d") = true
    ∧ create_directory ("d") ⟨[("d")], [(("f"), ("x"))]⟩ = ⟨[("d")], [(("f"), ("x"))]⟩
    ∧ (((⟨[("d")], [(("f"), ("x"))]⟩ : FS).getFile ("f")).isSome = true)
    ∧ ((stateOf (DspaceArchive.write ⟨[], ("")⟩ ("out")
        ⟨[("d")], [(("f"), ("x"))]⟩)).getFile ("f")).isSome := by
  have h := C7_non_purging ("d") ("f") ⟨[("d")], [(("f"), ("x"))]⟩ ⟨[], ("")⟩ ("out")
  exact ⟨rfl, h.1 rfl, rfl, h.2.2.2.2.2.1 rfl⟩

/-- C8: in the manifest loops the guard (loop index below the full list
length) holds for every enumerated index, so a newline is written after
every entry including the last: every non-empty manifest ends in a newline,
and both manifest files receive exactly this string. -/
theorem C8_guard_always_true (l : List String) (it : Item) (ip : String) (fs : FS) :
    (∀ p ∈ l.enum, p.1 < l.length)
    ∧ (l ≠ [] → ∃ s, manifestString l = s ++ ("\n"))
    ∧ (writeContentsFile it ip fs).getFile (pathJoin ip ("contents"))
        = some (manifestString it.getFiles)
    ∧ (writeCollectionsFile it ip fs).getFile (pathJoin ip ("collections"))
        = some (manifestString it.getCollections) := by
  refine ⟨?_, manifestString_trailing_newline l, getFile_setFile_same _ _ _,
    getFile_setFile_same _ _ _⟩
  intro p hp
  have := fst_lt_of_mem_enumFrom l 0 p hp
  omega

/-- Witness for C8 at the one-entry list: the manifest is the entry followed
by a newline. -/
theorem C8_guard_always_true_witness :
    ((("a") : String) :: [] ≠ [])
    ∧ (∃ s, manifestString [("a")] = s ++ ("\n"))
    ∧ manifestString [("a")] = ("a\n") := by
  have h := C8_guard_always_true [("a")] ⟨[], [], [], [], fun _ => ("")⟩ ("d") ⟨[], []⟩
  exact ⟨by decide, h.2.1 (by decide), rfl⟩

/-- C9 as stated is false: the output files are opened and closed with no
`try`/`finally`, so on the exit path where the first manifest write raises
(event 1 of the trace for a one-file item), the `close` event never runs and
the handle is not released before the error propagates. -/
theorem C9_counterexample :
    ¬ handleClosedOnExit (contentsEvents [("a")]) (some 1)
    ∧ 1 < (contentsEvents [("a")]).length := by
  constructor
  · decide
  · decide

/-- C9 amended: the manifest and metadata writers close their handle on the
normal exit path, but when any event of the trace raises, the handle is not
closed before the error propagates (no `try`/`finally` in the source). -/
theorem C9_amended (files cols : List String) (k : Nat)
    (hk : k < (contentsEvents files).length) :
    handleClosedOnExit (contentsEvents files) none
    ∧ handleClosedOnExit (contentsEvents cols) none
    ∧ handleClosedOnExit metadataEvents none
    ∧ ¬ handleClosedOnExit (contentsEvents files) (some k) :=
  ⟨contentsEvents_closed_none files, contentsEvents_closed_none cols,
    by decide, contentsEvents_not_closed_fail files k hk⟩

/-- Witness for C9 amended at a concrete trace and failing position. -/
theorem C9_amended_witness :
    (2 < (contentsEvents [("a")]).length)
    ∧ handleClosedOnExit (contentsEvents [("a")]) none
    ∧ ¬ handleClosedOnExit (contentsEvents [("a")]) (some 2) := by
  have h := C9_amended [("a")] [("b")] 2 (by decide)
  exact ⟨by decide, h.1, h.2.2.2⟩

/-- C10: `strip_csv_comments` truncates every line at the first `#` no
matter where it occurs (also inside a would-be quoted field), strips
surrounding whitespace from each surviving line, and therefore no surviving
line nor any field parsed from it can contain `#`, and no surviving line
starts or ends with whitespace. -/
theorem C10_strip_everywhere :
    (∀ (a b : List Char), '#' ∉ a →
      strip_line (String.mk (a ++ '#' :: b)) = pyStrip (String.mk a))
    ∧ (∀ row : String, '#' ∉ (strip_line row).data)
    ∧ (∀ (row : String) (c : Char), (strip_line row).data.head? = some c →
        c.isWhitespace = false)
    ∧ (∀ (row : String) (c : Char), (strip_line row).data.getLast? = some c →
        c.isWhitespace = false)
    ∧ (∀ (lines : List String) (l : String), l ∈ strip_csv_comments lines →
        ∀ f ∈ parse_csv_line l, '#' ∉ f.data) := by
  refine ⟨strip_line_append_hash, hash_not_mem_strip_line, ?_, ?_, ?_⟩
  · intro row c h
    exact pyStrip_head_not_ws (beforeHash row) c h
  · intro row c h
    exact pyStrip_getLast_not_ws (beforeHash row) c h
  · intro lines l hl f hf
    obtain ⟨row, _, heq, _⟩ := mem_strip_csv_comments lines l hl
    have hnh : '#' ∉ l.data := by
      rw [heq]
      exact hash_not_mem_strip_line row
    exact parse_csv_line_no_hash hnh f hf

/-- Witness for C10: truncation inside a quoted field and whitespace
stripping at a concrete line. -/
theorem C10_strip_everywhere_witness :
    ('#' ∉ ['"', 'v'])
    ∧ strip_line (String.mk (['"', 'v'] ++ '#' :: ['w'])) = pyStrip (String.mk ['"', 'v'])
    ∧ '#' ∉ (strip_line ((" a#b ") : String)).data
    ∧ strip_line ((" a#b ") : String) = ("a") := by
  have h := C10_strip_everywhere
  exact ⟨by decide, h.1 ['"', 'v'] ['w'] (by decide), h.2.1 ((" a#b ")), by decide⟩

end DspaceCsvArchive
